import Mathlib

/-!
Verification development for the normalization engine of
`src/nodejs/normalize.js` (f5-telemetry-streaming).

The JavaScript value universe is embedded as the inductive `JSValue`
(JSON-deserialized device payloads: null, booleans, numbers, strings,
order-preserving arrays, and insertion-ordered string-keyed objects).
Numbers are modelled as integers (no claim concerns non-integral numbers);
object fields are listed in property-enumeration order and, as in any real
JavaScript object, keys are unique.  Prototype-chain properties (e.g.
inherited methods) are outside the model: lookups see own properties only,
which is the behaviour the normalization code exercises on deserialized
JSON payloads.

Fallible code (JavaScript `throw`) is embedded with `Except String`.
-/

inductive JSValue : Type where
  | null : JSValue
  | bool : Bool → JSValue
  | num : Int → JSValue
  | str : String → JSValue
  | arr : List JSValue → JSValue
  | obj : List (String × JSValue) → JSValue
deriving Repr

/-- Decidable equality for `JSValue` (manual, due to the nested lists). -/
def JSValue.beq : JSValue → JSValue → Bool
  | .null, .null => true
  | .bool a, .bool b => a == b
  | .num a, .num b => a == b
  | .str a, .str b => a == b
  | .arr xs, .arr ys => beqL xs ys
  | .obj fs, .obj gs => beqF fs gs
  | _, _ => false
where
  beqL : List JSValue → List JSValue → Bool
    | [], [] => true
    | x :: xs, y :: ys => JSValue.beq x y && beqL xs ys
    | _, _ => false
  beqF : List (String × JSValue) → List (String × JSValue) → Bool
    | [], [] => true
    | (k, v) :: fs, (l, w) :: gs => k == l && JSValue.beq v w && beqF fs gs
    | _, _ => false

instance : BEq JSValue := ⟨JSValue.beq⟩

/- ### Character-list string primitives

JavaScript's `String.prototype.includes`, first-occurrence `replace` and
`split` are embedded over `List Char` so that concrete evaluations reduce
in the kernel. -/

/-- Does `sub` occur at the start of `s`? -/
def charsStartsWith : List Char → List Char → Bool
  | _, [] => true
  | [], _ :: _ => false
  | c :: cs, d :: ds => c == d && charsStartsWith cs ds

/-- Does `sub` occur anywhere in `s` (JS `s.includes(sub)`)? -/
def charsIncludes : List Char → List Char → Bool
  | s, sub =>
    charsStartsWith s sub ||
      match s with
      | [] => false
      | _ :: cs => charsIncludes cs sub

/-- JS `s.replace(sub, r)` with a plain-string pattern: replace the first
occurrence only (for an empty `sub`, JS prepends `r`, which the
`charsStartsWith s [] = true` base case reproduces). -/
def charsReplaceFirst : List Char → List Char → List Char → List Char
  | s, sub, r =>
    if charsStartsWith s sub then r ++ s.drop sub.length
    else
      match s with
      | [] => []
      | c :: cs => c :: charsReplaceFirst cs sub r

/-- JS `k.includes(i)`. -/
def jsIncludes (s sub : String) : Bool :=
  charsIncludes s.data sub.data

/-- JS `s.replace(sub, r)` (string pattern: first occurrence only). -/
def jsReplaceFirst (s sub r : String) : String :=
  String.mk (charsReplaceFirst s.data sub.data r.data)

theorem charsStartsWith_length_le :
    ∀ s sub : List Char, charsStartsWith s sub = true → sub.length ≤ s.length := by
  intro s sub
  induction sub generalizing s with
  | nil => intro _; simp
  | cons d ds ih =>
    intro h
    cases s with
    | nil => simp [charsStartsWith] at h
    | cons c cs =>
      simp only [charsStartsWith, Bool.and_eq_true] at h
      have := ih cs h.2
      simpa [List.length] using Nat.succ_le_succ this

/-- Structural worker for `charsSplitOn`: the fuel argument only makes the
recursion structural, and `s.length + 1` units always suffice (the string
shrinks at every recursive call and the separator call sites pass is
non-empty). -/
def charsSplitOnAux : Nat → List Char → List Char → List (List Char)
  | 0, s, _ => [s]
  | fuel + 1, s, sep =>
    if sep = [] then [s]
    else if charsStartsWith s sep then
      [] :: charsSplitOnAux fuel (s.drop sep.length) sep
    else
      match s with
      | [] => [[]]
      | c :: cs =>
        match charsSplitOnAux fuel cs sep with
        | [] => [[c]]
        | p :: ps => (c :: p) :: ps

/-- JS `s.split(sep)` for a non-empty string separator (the engine's
separator is the fixed non-empty `STATS_KEY_SEP`); splitting the empty
string yields `[""]`, as in JS. -/
def charsSplitOn (s sep : List Char) : List (List Char) :=
  charsSplitOnAux (s.length + 1) s sep

/-- JS `key.split(sep)`. -/
def jsSplit (s sep : String) : List String :=
  (charsSplitOn s.data sep.data).map String.mk

/-- Structural worker for the decimal numeral of a natural: the fuel only
makes the recursion structural; `n + 1` units always suffice since the
argument is divided by ten at every step. -/
def jsNatCharsAux : Nat → Nat → List Char
  | 0, _ => []
  | fuel + 1, n =>
    if n < 10 then [Nat.digitChar n]
    else jsNatCharsAux fuel (n / 10) ++ [Nat.digitChar (n % 10)]

/-- Decimal numeral for a natural (JS number-to-property-key coercion). -/
def jsNatChars (n : Nat) : List Char :=
  jsNatCharsAux (n + 1) n

def jsNatStr (n : Nat) : String :=
  String.mk (jsNatChars n)

/-- Canonical array-index parse: `k` denotes an index exactly when it is
the canonical decimal numeral of some natural (JS own-property indices). -/
def charsToNat? : List Char → Option Nat
  | cs =>
    let rec go : List Char → Nat → Option Nat
      | [], acc => some acc
      | c :: rest, acc =>
        if c.isDigit then go rest (acc * 10 + (c.toNat - 48)) else none
    match cs with
    | [] => none
    | _ => go cs 0

def toCanonicalIndex (k : String) : Option Nat :=
  match charsToNat? k.data with
  | some n => if jsNatStr n == k then some n else none
  | none => none

/- ### JavaScript object/value semantics -/

/-- JS truthiness: `null`, `false`, `0` and `""` are falsy; every object
and array (empty or not) is truthy. -/
def jsTruthy : JSValue → Bool
  | .null => false
  | .bool b => b
  | .num n => n != 0
  | .str s => s != ""
  | .arr _ => true
  | .obj _ => true

/-- Truthiness of a possibly-undefined property (`undefined` is falsy). -/
def jsTruthyO : Option JSValue → Bool
  | some v => jsTruthy v
  | none => false

/-- Own-property get `v[k]` (`none` = JS `undefined`).  Objects answer by
the key, arrays by canonical index or `length`, strings by index (a
one-character string) or `length`.  A property get on `null` throws in
JS; the call sites embed that throw explicitly before using `jsLookup`. -/
def jsLookup : JSValue → String → Option JSValue
  | .obj fs, k => fs.lookup k
  | .arr xs, k =>
    if k == "length" then some (.num xs.length)
    else
      match toCanonicalIndex k with
      | some i => xs.get? i
      | none => none
  | .str s, k =>
    if k == "length" then some (.num s.length)
    else
      match toCanonicalIndex k with
      | some i => (s.data.get? i).map (fun c => .str (String.mk [c]))
      | none => none
  | _, _ => none

/-- JS `i in ret` over own properties (callers have excluded `null`,
on which `in` throws). -/
def jsHasOwn (v : JSValue) (k : String) : Bool :=
  (jsLookup v k).isSome

/-- `Object.keys(data).length`. -/
def jsNumKeys : JSValue → Nat
  | .obj fs => fs.length
  | .arr xs => xs.length
  | .str s => s.length
  | _ => 0

def jsIndexed : Nat → List JSValue → List (String × JSValue)
  | _, [] => []
  | i, x :: xs => (jsNatStr i, x) :: jsIndexed (i + 1) xs

/-- `Object.keys(v)` paired with the corresponding own values (the
enumeration a `Object.keys(v).forEach(k => ... v[k] ...)` loop sees).
`Object.keys` of a number or boolean is empty; of `null` it throws —
call sites embed that throw. -/
def jsOwnEntries : JSValue → List (String × JSValue)
  | .obj fs => fs
  | .arr xs => jsIndexed 0 xs
  | .str s => jsIndexed 0 (s.data.map (fun c => .str (String.mk [c])))
  | _ => []

/-- JS property assignment `ret[k] = v` on an object: overwrite in place
if the key exists (keeping its enumeration position), else append. -/
def objInsert : List (String × JSValue) → String → JSValue → List (String × JSValue)
  | [], k, v => [(k, v)]
  | (k', v') :: rest, k, v =>
    if k' == k then (k, v) :: rest else (k', v') :: objInsert rest k v

/-- `typeof v === 'object'` (true for `null`, arrays and objects). -/
def jsTypeofObj : JSValue → Bool
  | .null => true
  | .arr _ => true
  | .obj _ => true
  | _ => false

def isArr : JSValue → Bool
  | .arr _ => true
  | _ => false

/- ### KeyPathResolver: `getDataByKey` (normalize.js lines 51-64) -/

/-- Modelled from the spec: `constants.STATS_KEY_SEP` (constants.js is not
under src/).  §4.2 only fixes that paths split on a fixed separator; the
repository's separator is the two-character string given here. -/
def STATS_KEY_SEP : String := "::"

/-- normalize.js lines 51-64.  Walks the separator-split segments: when
`typeof ret === 'object'` and the segment is an own property, descend,
else the running value becomes the string sentinel `'missing key'`.
When the running value is `null`, `typeof ret === 'object'` holds and
the JS `i in ret` test throws a TypeError, embedded as `Except.error`. -/
def getDataByKey (data : JSValue) (key : String) : Except String JSValue :=
  let keys := jsSplit key STATS_KEY_SEP
  keys.foldlM
    (fun ret i =>
      if jsTypeofObj ret then
        match ret with
        | .null => .error "TypeError: Cannot use 'in' operator to search for key in null"
        | _ =>
          if jsHasOwn ret i then pure ((jsLookup ret i).getD .null)
          else pure (.str "missing key")
      else pure (.str "missing key"))
    data

/- ### KeyFilter: `filterDataByKeys` (normalize.js lines 74-100) -/

mutual

/-- normalize.js lines 74-100.  Arrays are returned untouched ("for now
just ignore arrays"); non-objects are returned unchanged; an object keeps
exactly the keys that contain some entry of `keys` as a substring and
recurses into the kept values.  `Object.keys(null)` throws in JS
(`typeof null === 'object'` and `null` is not an array), embedded as an
error. -/
def filterDataByKeys : JSValue → List String → Except String JSValue
  | .null, _ => .error "TypeError: Cannot convert undefined or null to object"
  | .obj fs, keys => (filterFields fs keys).map .obj
  | data, _ => pure data

/-- The `Object.keys(data).forEach` loop of `filterDataByKeys`: dropped
keys are deleted, kept keys recurse. -/
def filterFields : List (String × JSValue) → List String → Except String (List (String × JSValue))
  | [], _ => pure []
  | (k, v) :: rest, keys =>
    if keys.any (fun i => jsIncludes k i) then do
      let v' ← filterDataByKeys v keys
      let rest' ← filterFields rest keys
      pure ((k, v') :: rest')
    else
      filterFields rest keys

end

/- ### KeyRenamer: `renameKeysInData` (normalize.js lines 110-142) -/

/-- One entry of the `patterns` map (normalize.js lines 118-128).  A JS
entry is either a bare regex or an object `{ pattern, group }`; both are
embedded as a match function plus a group index, since line 122 extracts
the regex either way and line 123 defaults a falsy `group` to `0`.
`matchFn k` embeds `k.match(pattern)`: `none` for no match, otherwise the
match array (index 0 the full match, then the capture groups). -/
structure RenamePattern : Type where
  matchFn : String → Option (List String)
  group : Nat

/-- `checkForMatch[group]` (normalize.js line 127): an out-of-range index
yields JS `undefined`, which the assignment `ret[renamedKey]` coerces to
the property key `"undefined"`. -/
def jsGroupGet (groups : List String) (group : Nat) : String :=
  (groups.get? group).getD "undefined"

/-- The inner `Object.keys(patterns).forEach` loop (normalize.js lines
118-130): every pattern whose trigger substring occurs in `k` and whose
regex matches overwrites the pending renamed key, so the last match in
enumeration order wins; a trigger hit whose regex fails leaves the
pending rename untouched. -/
def jsRenameKey (patterns : List (String × RenamePattern)) (k : String) : Option String :=
  patterns.foldl
    (fun acc pat =>
      if jsIncludes k pat.1 then
        match pat.2.matchFn k with
        | some groups => some (jsGroupGet groups pat.2.group)
        | none => acc
      else acc)
    none

mutual

/-- normalize.js lines 110-142.  Only non-array objects are rewritten
(line 114): each key is renamed by the last matching pattern and assigned
into the fresh result object.  Arrays fall ALL the way through to
`ret = data` (line 140) and are returned unchanged — their elements are
not recursed into.  Scalars are returned unchanged; `null` reaches
`Object.keys(null)`, which throws. -/
def renameKeysInData : JSValue → List (String × RenamePattern) → Except String JSValue
  | .null, _ => .error "TypeError: Cannot convert undefined or null to object"
  | .obj fs, patterns => (renameFields fs patterns []).map .obj
  | data, _ => pure data

/-- The outer `Object.keys(data).forEach` loop of `renameKeysInData`,
with `ret` the accumulated result object (assignments overwrite, so two
keys renamed alike leave only the later one's subtree). -/
def renameFields :
    List (String × JSValue) → List (String × RenamePattern) →
    List (String × JSValue) → Except String (List (String × JSValue))
  | [], _, ret => pure ret
  | (k, v) :: rest, patterns, ret => do
    let v' ← renameKeysInData v patterns
    renameFields rest patterns
      (objInsert ret (match jsRenameKey patterns k with | some r => r | none => k) v')

end

/- ### CustomFunctionDispatcher: `runCustomFunction` (normalize.js lines 26-41) -/

/-- Modelled from the spec: the `normalizeUtil` module (not under src/),
§6's `CustomFunctionRegistry`: a fixed name-to-function mapping; a
registered function may itself throw. -/
def Registry : Type := String → Option (JSValue → Except String JSValue)

/-- The `Object.keys(optionalArgs).forEach` loop of normalize.js lines
31-34: merge the caller's args over `{ data }`, throwing on the reserved
key `data`.  The throw happens outside the `try` of line 36, so it is
not wrapped. -/
def mergeArgs : List (String × JSValue) → List (String × JSValue) →
    Except String (List (String × JSValue))
  | acc, [] => pure acc
  | acc, (k, v) :: rest =>
    if k == "data" then .error "Named argument (data) is not allowed"
    else mergeArgs (objInsert acc k v) rest

/-- normalize.js lines 26-41.  `args` starts as `{ data }`; a truthy
`options.args` of object type (object or array) is merged key by key with
the reserved-key check; then the named registry function is invoked inside
a `try` whose catch wraps any failure (including a lookup miss, which in
JS throws a TypeError) with the stable message head. -/
def runCustomFunction (registry : Registry) (data : JSValue)
    (func : String) (args : Option JSValue) : Except String JSValue := do
  let base : List (String × JSValue) := [("data", data)]
  let merged ←
    match args with
    | some a =>
      if jsTruthy a && jsTypeofObj a then mergeArgs base (jsOwnEntries a)
      else pure base
    | none => pure base
  match registry func with
  | none => .error "runCustomFunction failed: TypeError: normalizeUtil[options.func] is not a function"
  | some f =>
    match f (.obj merged) with
    | .ok r => .ok r
    | .error e => .error ("runCustomFunction failed: " ++ e)

/- ### Reducer: `reduceData` (normalize.js lines 153-204) -/

/-- normalize.js line 157. -/
def keysToReduce : List String := ["nestedStats", "value", "description", "color"]

/-- normalize.js line 172: strip the host-URL head and the path head from
an entries key (JS string `replace`: first occurrence each). -/
def simplifyEntriesKey (k : String) : String :=
  jsReplaceFirst (jsReplaceFirst k "https://localhost/" "") "mgmt/tm/" ""

/-- The loop of normalize.js lines 158-163: the first well-known key whose
property is defined while the object has exactly one key. -/
def scaffoldItem (data : JSValue) : Option JSValue :=
  keysToReduce.findSome? (fun k =>
    match jsLookup data k with
    | some item => if jsNumKeys data == 1 then some item else none
    | none => none)

/-- The `Object.keys(data.entries).forEach` loop of normalize.js lines
167-174, applied to the `entries` property `e`: a fresh object mapping
each simplified entries key to the corresponding (not yet reduced)
child value. -/
def entriesRet (e : JSValue) : List (String × JSValue) :=
  (jsOwnEntries e).foldl (fun ret p => objInsert ret (simplifyEntriesKey p.1) p.2) []

/-- Modelled from the spec: `util.convertArrayToMap` (util.js is not under
src/).  §6: "ArrayToMapConverter(sequence, keyFieldName, {keyPrefix}) ->
mapping — pivots a sequence into a keyed mapping using a designated
field": each element becomes the value under the (optionally prefixed)
property-key coercion of its `keyName` field. -/
def jsKeyString : Option JSValue → String
  | none => "undefined"
  | some .null => "null"
  | some (.bool b) => if b then "true" else "false"
  | some (.num n) => if n < 0 then "-" ++ jsNatStr n.natAbs else jsNatStr n.natAbs
  | some (.str s) => s
  | some (.arr _) => ""
  | some (.obj _) => "[object Object]"

/-- The property key an array element is pivoted under: the (optionally
prefixed) JS property-key coercion of its `keyName` field (the key text
of non-scalar fields is irrelevant to every claim). -/
def pivotKeyOf (keyName : String) (keyPfx : Option String) (i : JSValue) : String :=
  match keyPfx with
  | some p => p ++ jsKeyString (jsLookup i keyName)
  | none => jsKeyString (jsLookup i keyName)

def convertArrayToMap (xs : List JSValue) (keyName : String) (keyPfx : Option String) :
    List (String × JSValue) :=
  xs.foldl (fun ret i => objInsert ret (pivotKeyOf keyName keyPfx i) i) []

/-- `options.convertArrayToMap` (normalize.js lines 182-184). -/
structure CatmOptions : Type where
  keyName : Option String
  keyNamePfx : Option String

/-- The options `reduceData` consumes (normalize.js line 149). -/
structure ReduceOptions : Type where
  convertArrayToMap : Option CatmOptions

/- #### Termination measure

The entries branch recurses on a freshly build object, so the recursion
is not structural.  `jsMu` weighs a node (strings by character count, so
that expanding a string `entries` value into its index-keyed characters
does not grow the weight), and `jsPhi` breaks the remaining ties: arrays
(which an array-to-map pivot turns into objects of the same weight) rank
above objects with a truthy `entries` property (which the entries branch
turns into objects of the same weight whose keys are index numerals),
which rank above everything else. -/

mutual

def jsMu : JSValue → Nat
  | .null => 1
  | .bool _ => 1
  | .num _ => 1
  | .str s => s.length
  | .arr xs => 1 + muL xs
  | .obj fs => 1 + muF fs

def muL : List JSValue → Nat
  | [] => 0
  | x :: xs => jsMu x + muL xs

def muF : List (String × JSValue) → Nat
  | [] => 0
  | f :: fs => jsMu f.2 + muF fs

end

def jsPhi : JSValue → Nat
  | .arr _ => 2
  | .obj fs => if jsTruthyO (fs.lookup "entries") then 1 else 0
  | _ => 0

def redM (v : JSValue) : Nat := 3 * jsMu v + jsPhi v

theorem jsPhi_le_two : ∀ v, jsPhi v ≤ 2 := by
  intro v; cases v <;> simp [jsPhi]
  split <;> omega

theorem lookup_mem {α : Type} [BEq α] [LawfulBEq α] {β : Type} :
    ∀ (l : List (α × β)) (k : α) (v : β), l.lookup k = some v → (k, v) ∈ l := by
  intro l k v
  induction l with
  | nil => intro h; simp [List.lookup] at h
  | cons p rest ih =>
    rcases p with ⟨a, b⟩
    intro h
    rw [List.lookup] at h
    by_cases hk : k == a
    · have hka : k = a := by simpa using hk
      rw [hk] at h
      simp at h
      subst hka
      simp [h]
    · simp [hk] at h
      exact List.mem_cons_of_mem _ (ih h)

theorem muF_mem : ∀ (fs : List (String × JSValue)) k v, (k, v) ∈ fs → jsMu v ≤ muF fs := by
  intro fs k v
  induction fs with
  | nil => intro h; simp at h
  | cons f rest ih =>
    intro h
    rcases List.mem_cons.1 h with h1 | h2
    · simp only [muF, ← h1]; omega
    · simp only [muF]; have := ih h2; omega

theorem muF_objInsert_le :
    ∀ (fs : List (String × JSValue)) k v, muF (objInsert fs k v) ≤ muF fs + jsMu v := by
  intro fs k v
  induction fs with
  | nil => simp [objInsert, muF]
  | cons f rest ih =>
    rw [objInsert]
    split
    · simp only [muF]; omega
    · simp only [muF]; omega

theorem muF_foldl_insert_le :
    ∀ (l acc : List (String × JSValue)) (f : String → String),
      muF (l.foldl (fun ret p => objInsert ret (f p.1) p.2) acc) ≤ muF acc + muF l := by
  intro l
  induction l with
  | nil => intro acc f; simp [muF]
  | cons p rest ih =>
    intro acc f
    rw [List.foldl_cons]
    calc muF (rest.foldl (fun ret p => objInsert ret (f p.1) p.2) (objInsert acc (f p.1) p.2))
        ≤ muF (objInsert acc (f p.1) p.2) + muF rest := ih _ f
      _ ≤ (muF acc + jsMu p.2) + muF rest := by
          have := muF_objInsert_le acc (f p.1) p.2; omega
      _ = muF acc + muF (p :: rest) := by simp only [muF]; omega

theorem digitChar_isDigit : ∀ n : Nat, n < 10 → (Nat.digitChar n).isDigit = true := by
  intro n h
  interval_cases n <;> decide

theorem jsNatCharsAux_digits :
    ∀ fuel n c, c ∈ jsNatCharsAux fuel n → c.isDigit = true := by
  intro fuel
  induction fuel with
  | zero => intro n c h; simp [jsNatCharsAux] at h
  | succ fuel ih =>
    intro n c h
    rw [jsNatCharsAux] at h
    by_cases hn : n < 10
    · simp [hn] at h
      rw [h]; exact digitChar_isDigit n hn
    · simp [hn] at h
      rcases h with h1 | h2
      · exact ih _ _ h1
      · rw [h2]; exact digitChar_isDigit _ (Nat.mod_lt _ (by omega))

theorem jsNatStr_digits : ∀ n c, c ∈ (jsNatStr n).data → c.isDigit = true := by
  intro n c h
  exact jsNatCharsAux_digits _ _ _ h

theorem jsNatStr_ne_entries : ∀ n, jsNatStr n ≠ "entries" := by
  intro n h
  have hd : (jsNatStr n).data = "entries".data := by rw [h]
  have : 'e' ∈ (jsNatStr n).data := by rw [hd]; decide
  have := jsNatStr_digits n 'e' this
  simp at this

theorem charsReplaceFirst_nodigit_head :
    ∀ (s : List Char) d ds r, (∀ c ∈ s, c.isDigit = true) → d.isDigit = false →
      charsReplaceFirst s (d :: ds) r = s := by
  intro s d ds r
  induction s with
  | nil =>
    intro _ _
    rw [charsReplaceFirst]
    simp [charsStartsWith]
  | cons c cs ih =>
    intro hall hd
    have hcd : (c == d) = false := by
      have hc : c.isDigit = true := hall c (by simp)
      by_cases h : c = d
      · rw [h] at hc; rw [hc] at hd; cases hd
      · simp [h]
    rw [charsReplaceFirst]
    rw [charsStartsWith, hcd]
    simp only [Bool.false_and, if_neg (Bool.false_ne_true)]
    rw [ih (fun x hx => hall x (by simp [hx])) hd]

theorem simplifyEntriesKey_digits :
    ∀ s : String, (∀ c ∈ s.data, c.isDigit = true) → simplifyEntriesKey s = s := by
  intro s hall
  have h1 : "https://localhost/".data = 'h' :: "ttps://localhost/".data := by decide
  have h2 : "mgmt/tm/".data = 'm' :: "gmt/tm/".data := by decide
  have hinner : jsReplaceFirst s "https://localhost/" "" = s := by
    rw [jsReplaceFirst, h1, charsReplaceFirst_nodigit_head s.data 'h' _ _ hall (by decide)]
  have houter : jsReplaceFirst s "mgmt/tm/" "" = s := by
    rw [jsReplaceFirst, h2, charsReplaceFirst_nodigit_head s.data 'm' _ _ hall (by decide)]
  rw [simplifyEntriesKey, hinner, houter]

theorem lookup_objInsert_none :
    ∀ (fs : List (String × JSValue)) k k' v, k' ≠ k → fs.lookup k = none →
      (objInsert fs k' v).lookup k = none := by
  intro fs k k' v hne
  induction fs with
  | nil =>
    intro _
    have hkk : (k == k') = false := by
      simp only [beq_eq_false_iff_ne]
      intro hk; exact hne hk.symm
    simp [objInsert, List.lookup, hkk]
  | cons f rest ih =>
    intro h
    rw [List.lookup] at h
    rcases hkf : (k == f.1) with _ | _
    · rw [hkf] at h
      simp only [objInsert]
      rcases hf : (f.1 == k') with _ | _
      · simp only [hf, Bool.false_eq_true, if_false, List.lookup, hkf]
        exact ih h
      · simp only [hf, if_true, List.lookup]
        have : (k == k') = false := by
          simp only [beq_eq_false_iff_ne]
          intro hk; exact hne hk.symm
        rw [this]
        exact h
    · rw [hkf] at h; cases h

theorem lookup_foldl_insert_none :
    ∀ (l acc : List (String × JSValue)) (f : String → String) k,
      (∀ p ∈ l, f p.1 ≠ k) → acc.lookup k = none →
      (l.foldl (fun ret p => objInsert ret (f p.1) p.2) acc).lookup k = none := by
  intro l
  induction l with
  | nil => intro acc f k _ h; simpa using h
  | cons p rest ih =>
    intro acc f k hall h
    rw [List.foldl_cons]
    exact ih _ f k (fun q hq => hall q (by simp [hq]))
      (lookup_objInsert_none acc k (f p.1) p.2 (hall p (by simp)) h)

theorem muF_jsIndexed : ∀ (xs : List JSValue) i, muF (jsIndexed i xs) = muL xs := by
  intro xs
  induction xs with
  | nil => intro i; simp [jsIndexed, muF, muL]
  | cons x rest ih =>
    intro i
    simp only [jsIndexed, muF, muL, ih]

theorem muL_charmap :
    ∀ cs : List Char, muL (cs.map (fun c => JSValue.str (String.mk [c]))) = cs.length := by
  intro cs
  induction cs with
  | nil => simp [muL]
  | cons c rest ih =>
    simp only [List.map_cons, muL, ih, jsMu]
    simp [String.length]
    omega

theorem findSome?_some {α β : Type} :
    ∀ (l : List α) (f : α → Option β) (b : β),
      l.findSome? f = some b → ∃ a ∈ l, f a = some b := by
  intro l f b
  induction l with
  | nil => intro h; simp [List.findSome?] at h
  | cons x rest ih =>
    intro h
    rw [List.findSome?] at h
    rcases hx : f x with _ | v
    · rw [hx] at h
      rcases ih h with ⟨a, ha, hfa⟩
      exact ⟨a, by simp [ha], hfa⟩
    · rw [hx] at h
      simp at h
      exact ⟨x, by simp, by rw [hx, h]⟩

theorem mem_keysToReduce_cases :
    ∀ k, k ∈ keysToReduce →
      k = "nestedStats" ∨ k = "value" ∨ k = "description" ∨ k = "color" := by
  intro k hk
  simpa [keysToReduce] using hk

theorem jsLookup_str_scaffold_none :
    ∀ (s : String) k, k ∈ keysToReduce → jsLookup (.str s) k = none := by
  intro s k hk
  have hcase := mem_keysToReduce_cases k hk
  have hlen : (k == "length") = false := by
    rcases hcase with h | h | h | h <;> (subst h; decide)
  have hidx : toCanonicalIndex k = none := by
    rcases hcase with h | h | h | h <;> (subst h; decide)
  rw [jsLookup, hlen, hidx]
  simp

theorem jsLookup_arr_scaffold_none :
    ∀ (xs : List JSValue) k, k ∈ keysToReduce → jsLookup (.arr xs) k = none := by
  intro xs k hk
  have hcase := mem_keysToReduce_cases k hk
  have hlen : (k == "length") = false := by
    rcases hcase with h | h | h | h <;> (subst h; decide)
  have hidx : toCanonicalIndex k = none := by
    rcases hcase with h | h | h | h <;> (subst h; decide)
  rw [jsLookup, hlen, hidx]
  simp

/-- The scaffold unwrap only ever fires on an object, and the unwrapped
item weighs strictly less than the wrapper. -/
theorem redM_scaffold_lt :
    ∀ data item, scaffoldItem data = some item → redM item < redM data := by
  intro data item h
  rcases findSome?_some _ _ _ h with ⟨k, hk, hfk⟩
  rcases hlk : jsLookup data k with _ | v
  · rw [scaffoldItem] at h
    rw [hlk] at hfk
    cases hfk
  · rw [hlk] at hfk
    have hv : v = item := by
      by_cases hn : jsNumKeys data == 1
      · simpa [hn] using hfk
      · simp [hn] at hfk
    subst hv
    cases data with
    | null => cases hlk
    | bool b => cases hlk
    | num n => cases hlk
    | str s => rw [jsLookup_str_scaffold_none s k hk] at hlk; cases hlk
    | arr xs => rw [jsLookup_arr_scaffold_none xs k hk] at hlk; cases hlk
    | obj fs =>
      have hmem := lookup_mem fs k v (by simpa [jsLookup] using hlk)
      have hmu := muF_mem fs k v hmem
      have h1 : jsMu v + 1 ≤ jsMu (.obj fs) := by
        simp only [jsMu]; omega
      have h2 := jsPhi_le_two v
      have h3 : 0 ≤ jsPhi (.obj fs) := Nat.zero_le _
      simp only [redM]
      omega

theorem jsPhi_obj_le_one : ∀ fs, jsPhi (.obj fs) ≤ 1 := by
  intro fs
  simp only [jsPhi]
  split <;> omega

theorem jsIndexed_key :
    ∀ (l : List JSValue) i p, p ∈ jsIndexed i l → ∃ n x, p = (jsNatStr n, x) := by
  intro l
  induction l with
  | nil => intro i p hp; simp [jsIndexed] at hp
  | cons y rest ih =>
    intro i p hp
    rw [jsIndexed] at hp
    rcases List.mem_cons.1 hp with h1 | h2
    · exact ⟨i, y, h1⟩
    · exact ih (i + 1) p h2

/-- The object the entries branch rebuilds weighs less than its source:
strictly, except for a string-valued `entries` property, where the tie is
broken because the rebuilt object's keys are index numerals, never
`entries`. -/
theorem redM_entries_lt :
    ∀ (fs : List (String × JSValue)) E, fs.lookup "entries" = some E →
      jsTruthy E = true → redM (.obj (entriesRet E)) < redM (.obj fs) := by
  intro fs E hlk htr
  have hmem := lookup_mem fs _ _ hlk
  have hmuE : jsMu E ≤ muF fs := muF_mem fs _ _ hmem
  have hphi : jsPhi (.obj fs) = 1 := by
    simp only [jsPhi, hlk, jsTruthyO, htr, if_true]
  have hins := muF_foldl_insert_le (jsOwnEntries E) [] simplifyEntriesKey
  have hins' : muF (entriesRet E) ≤ muF (jsOwnEntries E) := by
    rw [entriesRet]
    simpa [muF] using hins
  cases E with
  | null => simp [jsTruthy] at htr
  | bool b =>
    have : muF (entriesRet (.bool b)) = 0 := by
      rw [entriesRet]; simp [jsOwnEntries, muF]
    simp only [redM, jsMu, this]
    have := jsPhi_obj_le_one (entriesRet (.bool b))
    simp only [jsMu] at hmuE
    omega
  | num n =>
    have : muF (entriesRet (.num n)) = 0 := by
      rw [entriesRet]; simp [jsOwnEntries, muF]
    simp only [redM, jsMu, this]
    have := jsPhi_obj_le_one (entriesRet (.num n))
    simp only [jsMu] at hmuE
    omega
  | obj gs =>
    have hE : muF (jsOwnEntries (.obj gs)) = jsMu (.obj gs) - 1 := by
      simp [jsOwnEntries, jsMu]
    have := jsPhi_obj_le_one (entriesRet (.obj gs))
    simp only [redM, jsMu, hphi]
    simp only [jsMu] at hmuE hE
    omega
  | arr ys =>
    have hE : muF (jsOwnEntries (.arr ys)) = muL ys := by
      simp [jsOwnEntries, muF_jsIndexed]
    have := jsPhi_obj_le_one (entriesRet (.arr ys))
    simp only [redM, jsMu, hphi]
    simp only [jsMu] at hmuE
    omega
  | str s =>
    have hE : muF (jsOwnEntries (.str s)) = s.length := by
      simp only [jsOwnEntries, muF_jsIndexed]
      exact muL_charmap s.data
    have hkeys : ∀ p ∈ jsOwnEntries (.str s), simplifyEntriesKey p.1 ≠ "entries" := by
      intro p hp
      have : ∃ n x, p = (jsNatStr n, x) := by
        simp only [jsOwnEntries] at hp
        exact jsIndexed_key _ 0 p hp
      rcases this with ⟨n, x, hpx⟩
      rw [hpx]
      have hdig : ∀ c ∈ (jsNatStr n).data, c.isDigit = true := jsNatStr_digits n
      rw [simplifyEntriesKey_digits (jsNatStr n) hdig]
      exact jsNatStr_ne_entries n
    have hnone : (entriesRet (.str s)).lookup "entries" = none := by
      rw [entriesRet]
      exact lookup_foldl_insert_none _ [] _ _ hkeys (by simp [List.lookup])
    have hphi0 : jsPhi (.obj (entriesRet (.str s))) = 0 := by
      simp only [jsPhi, hnone, jsTruthyO]
      rfl
    simp only [redM, jsMu, hphi, hphi0]
    simp only [jsMu] at hmuE
    omega

/-- The pivoted map weighs no more than the array it came from, and the
`jsPhi` rank of an array beats any object. -/
theorem muF_foldl_insert_elems_le :
    ∀ (l : List JSValue) (acc : List (String × JSValue)) (g : JSValue → String),
      muF (l.foldl (fun ret i => objInsert ret (g i) i) acc) ≤ muF acc + muL l := by
  intro l
  induction l with
  | nil => intro acc g; simp [muL]
  | cons x rest ih =>
    intro acc g
    rw [List.foldl_cons]
    calc muF (rest.foldl (fun ret i => objInsert ret (g i) i) (objInsert acc (g x) x))
        ≤ muF (objInsert acc (g x) x) + muL rest := ih _ g
      _ ≤ (muF acc + jsMu x) + muL rest := by
          have := muF_objInsert_le acc (g x) x; omega
      _ = muF acc + muL (x :: rest) := by simp only [muL]; omega

theorem redM_pivot_lt :
    ∀ (xs : List JSValue) kn pfx,
      redM (.obj (convertArrayToMap xs kn pfx)) < redM (.arr xs) := by
  intro xs kn pfx
  have h1 : muF (convertArrayToMap xs kn pfx) ≤ muL xs := by
    rw [convertArrayToMap]
    have := muF_foldl_insert_elems_le xs [] (pivotKeyOf kn pfx)
    simpa [muF] using this
  have h2 := jsPhi_obj_le_one (convertArrayToMap xs kn pfx)
  have h3 : jsPhi (.arr xs) = 2 := rfl
  simp only [redM, jsMu]
  omega

theorem jsLookup_str_entries_none : ∀ s : String, jsLookup (.str s) "entries" = none := by
  intro s
  rw [jsLookup]
  have h1 : ("entries" == "length") = false := by decide
  have h2 : toCanonicalIndex "entries" = none := by decide
  rw [h1, h2]
  simp

/-- Measure decrease for the entries branch, in the exact shape of the
recursive call. -/
theorem redM_entries_branch_lt :
    ∀ data, jsTruthyO (jsLookup data "entries") = true → isArr data = false →
      redM (.obj (entriesRet ((jsLookup data "entries").getD .null))) < redM data := by
  intro data ht ha
  cases data with
  | null => simp [jsLookup, jsTruthyO] at ht
  | bool b => simp [jsLookup, jsTruthyO] at ht
  | num n => simp [jsLookup, jsTruthyO] at ht
  | str s =>
    rw [jsLookup_str_entries_none s] at ht
    simp [jsTruthyO] at ht
  | arr xs => simp [isArr] at ha
  | obj fs =>
    rcases hlk : fs.lookup "entries" with _ | E
    · rw [show jsLookup (.obj fs) "entries" = fs.lookup "entries" from rfl, hlk] at ht
      simp [jsTruthyO] at ht
    · have hl2 : jsLookup (.obj fs) "entries" = some E := by
        rw [show jsLookup (.obj fs) "entries" = fs.lookup "entries" from rfl, hlk]
      have htr : jsTruthy E = true := by
        rw [hl2] at ht
        simpa [jsTruthyO] using ht
      have := redM_entries_lt fs E hlk htr
      rw [hl2]
      simpa using this

theorem redM_obj_fields_lt : ∀ fs, 3 * muF fs + 2 < redM (.obj fs) := by
  intro fs
  have := Nat.zero_le (jsPhi (.obj fs))
  simp only [redM, jsMu]
  omega

theorem redM_arr_list_lt : ∀ xs, 3 * muL xs + 2 < redM (.arr xs) := by
  intro xs
  simp only [redM, jsMu, jsPhi]
  omega

theorem lex_list_elem :
    ∀ (x : JSValue) (rest : List JSValue),
      Prod.Lex (· < ·) (· < ·) (redM x, (0 : Nat))
        (3 * muL (x :: rest) + 2, (x :: rest).length) := by
  intro x rest
  rcases Nat.lt_or_ge (redM x) (3 * muL (x :: rest) + 2) with h | h
  · exact Prod.Lex.left _ _ h
  · have hle : redM x ≤ 3 * muL (x :: rest) + 2 := by
      have := jsPhi_le_two x
      simp only [redM, muL]
      omega
    have heq : redM x = 3 * muL (x :: rest) + 2 := le_antisymm hle h
    rw [heq]
    exact Prod.Lex.right _ (by simp)

theorem lex_list_tail :
    ∀ (x : JSValue) (rest : List JSValue),
      Prod.Lex (· < ·) (· < ·) (3 * muL rest + 2, rest.length)
        (3 * muL (x :: rest) + 2, (x :: rest).length) := by
  intro x rest
  rcases Nat.lt_or_ge (3 * muL rest + 2) (3 * muL (x :: rest) + 2) with h | h
  · exact Prod.Lex.left _ _ h
  · have hle : 3 * muL rest + 2 ≤ 3 * muL (x :: rest) + 2 := by
      simp only [muL]
      omega
    have heq : 3 * muL rest + 2 = 3 * muL (x :: rest) + 2 := le_antisymm hle h
    rw [heq]
    exact Prod.Lex.right _ (by simp)

theorem lex_fields_elem :
    ∀ (k : String) (v : JSValue) (rest : List (String × JSValue)),
      Prod.Lex (· < ·) (· < ·) (redM v, (0 : Nat))
        (3 * muF ((k, v) :: rest) + 2, ((k, v) :: rest).length) := by
  intro k v rest
  rcases Nat.lt_or_ge (redM v) (3 * muF ((k, v) :: rest) + 2) with h | h
  · exact Prod.Lex.left _ _ h
  · have hle : redM v ≤ 3 * muF ((k, v) :: rest) + 2 := by
      have := jsPhi_le_two v
      simp only [redM, muF]
      omega
    have heq : redM v = 3 * muF ((k, v) :: rest) + 2 := le_antisymm hle h
    rw [heq]
    exact Prod.Lex.right _ (by simp)

theorem lex_fields_tail :
    ∀ (f : String × JSValue) (rest : List (String × JSValue)),
      Prod.Lex (· < ·) (· < ·) (3 * muF rest + 2, rest.length)
        (3 * muF (f :: rest) + 2, (f :: rest).length) := by
  intro f rest
  rcases Nat.lt_or_ge (3 * muF rest + 2) (3 * muF (f :: rest) + 2) with h | h
  · exact Prod.Lex.left _ _ h
  · have hle : 3 * muF rest + 2 ≤ 3 * muF (f :: rest) + 2 := by
      simp only [muF]
      omega
    have heq : 3 * muF rest + 2 = 3 * muF (f :: rest) + 2 := le_antisymm hle h
    rw [heq]
    exact Prod.Lex.right _ (by simp)

/-- `data` is JS `null` (normalize.js line 159 dereferences `data` first,
so null input throws a TypeError before anything else). -/
def isNull : JSValue → Bool
  | .null => true
  | _ => false

/-- The falsy `keyNamePrefix` check of the pivot call (normalize.js line
184 passes `catm.keyNamePrefix` as `options.keyPrefix`, and the converter
tests its truthiness). -/
def pfxOpt : Option String → Option String
  | some p => if p == "" then none else some p
  | none => none

/-- The option-side gate of the pivot (normalize.js lines 182-183:
`const catm = options.convertArrayToMap; if (catm && catm.keyName)`):
the pivot key name when the gate passes (a missing option object or a
falsy key name disables the pivot). -/
def catmKey (options : ReduceOptions) : Option String :=
  match options.convertArrayToMap with
  | some catm =>
    match catm.keyName with
    | some kn => if kn == "" then none else some kn
    | none => none
  | none => none

/-- The `{ keyPrefix: catm.keyNamePrefix }` argument of the pivot call
(normalize.js line 184). -/
def catmPfx (options : ReduceOptions) : Option String :=
  match options.convertArrayToMap with
  | some catm => pfxOpt catm.keyNamePfx
  | none => none

mutual

/-- normalize.js lines 153-204.  In order: the well-known sole-key
scaffold unwrap (lines 157-163; a property get on `null` data throws
first), the `entries` rebuild (lines 166-176), the array pivot or
element-wise recursion (lines 180-191), the generic object recursion
(lines 192-197), and the scalar base case (lines 201-203). -/
def reduceData (data : JSValue) (options : ReduceOptions) : Except String JSValue :=
  if isNull data then .error "TypeError: Cannot read properties of null"
  else
    match hscaf : scaffoldItem data with
    | some item => reduceData item options
    | none =>
      if hent : jsTruthyO (jsLookup data "entries") && !(isArr data) then
        reduceData (.obj (entriesRet ((jsLookup data "entries").getD .null))) options
      else
        match data with
        | .arr xs =>
          match catmKey options with
          | some kn => reduceData (.obj (convertArrayToMap xs kn (catmPfx options))) options
          | none => (reduceList xs options).map .arr
        | .obj fs => (reduceFields fs options).map .obj
        | d => pure d
termination_by (redM data, 0)
decreasing_by
  all_goals
    first
    | exact Prod.Lex.left _ _ (redM_scaffold_lt _ _ hscaf)
    | (rcases Bool.and_eq_true_iff.1 hent with ⟨h1, h2⟩
       refine Prod.Lex.left _ _ (redM_entries_branch_lt _ h1 ?_)
       cases hia : isArr data
       · rfl
       · rw [hia] at h2; cases h2)
    | exact Prod.Lex.left _ _ (redM_pivot_lt _ _ _)
    | exact Prod.Lex.left _ _ (redM_arr_list_lt _)
    | exact Prod.Lex.left _ _ (redM_obj_fields_lt _)

/-- The element-wise array recursion of normalize.js lines 188-190. -/
def reduceList (xs : List JSValue) (options : ReduceOptions) :
    Except String (List JSValue) :=
  match xs with
  | [] => pure []
  | x :: rest => do
    let y ← reduceData x options
    let ys ← reduceList rest options
    pure (y :: ys)
termination_by (3 * muL xs + 2, xs.length)
decreasing_by
  all_goals first | exact lex_list_elem _ _ | exact lex_list_tail _ _

/-- The generic object recursion of normalize.js lines 193-196 (the key
set is JS-unique, so the fresh `ret[k] = ...` assignments append in
enumeration order). -/
def reduceFields (fs : List (String × JSValue)) (options : ReduceOptions) :
    Except String (List (String × JSValue)) :=
  match fs with
  | [] => pure []
  | (k, v) :: rest => do
    let w ← reduceData v options
    let ws ← reduceFields rest options
    pure ((k, w) :: ws)
termination_by (3 * muF fs + 2, fs.length)
decreasing_by
  all_goals first | exact lex_fields_elem _ _ _ | exact lex_fields_tail _ _

end

/- ### NormalizationOrchestrator: `normalizeData` (normalize.js lines 219-237) -/

/-- `options.runCustomFunction` (normalize.js lines 228-233). -/
structure RunCfOptions : Type where
  name : String
  args : Option JSValue

/-- `NormalizationOptions` (normalize.js lines 209-215). -/
structure NormalizeOptions : Type where
  key : Option String
  filterByKeys : Option (List String)
  renameKeysByPattern : Option (List (String × RenamePattern))
  convertArrayToMap : Option CatmOptions
  runCustomFunction : Option RunCfOptions

/-- The all-absent options object (`normalize(data, {})`). -/
def emptyOptions : NormalizeOptions := ⟨none, none, none, none, none⟩

/-- normalize.js lines 219-237: always reduce (passing only
`convertArrayToMap` through), then the option-gated stages in fixed
order; `options.key` is tested for truthiness (an empty string is falsy),
the remaining gates hold whenever the option is present, since arrays and
objects are truthy however empty. -/
def normalizeData (registry : Registry) (data : JSValue) (options : NormalizeOptions) :
    Except String JSValue := do
  let ret ← reduceData data ⟨options.convertArrayToMap⟩
  let ret ←
    match options.key with
    | some k => if k == "" then pure ret else getDataByKey ret k
    | none => pure ret
  let ret ←
    match options.filterByKeys with
    | some ks => filterDataByKeys ret ks
    | none => pure ret
  let ret ←
    match options.renameKeysByPattern with
    | some ps => renameKeysInData ret ps
    | none => pure ret
  match options.runCustomFunction with
  | some rcf => runCustomFunction registry ret rcf.name rcf.args
  | none => pure ret

set_option maxRecDepth 4000

/- #### Branch equations for `reduceData`

The well-founded definition does not reduce definitionally, so each
branch of normalize.js lines 153-204 is exposed as an equation. -/

theorem reduceData_null (options : ReduceOptions) :
    reduceData .null options = .error "TypeError: Cannot read properties of null" := by
  rw [reduceData.eq_def]
  simp [isNull]

theorem reduceData_scaffold (data : JSValue) (options : ReduceOptions) (item : JSValue)
    (h1 : isNull data = false) (h2 : scaffoldItem data = some item) :
    reduceData data options = reduceData item options := by
  rw [reduceData.eq_def]
  simp only [h1, Bool.false_eq_true, if_false]
  split
  next item' heq =>
    rw [h2] at heq
    cases heq
    rfl
  next heq =>
    rw [h2] at heq
    cases heq

theorem reduceData_entries (data : JSValue) (options : ReduceOptions)
    (h1 : isNull data = false) (h2 : scaffoldItem data = none)
    (h3 : (jsTruthyO (jsLookup data "entries") && !isArr data) = true) :
    reduceData data options =
      reduceData (.obj (entriesRet ((jsLookup data "entries").getD .null))) options := by
  rw [reduceData.eq_def]
  simp only [h1, Bool.false_eq_true, if_false]
  split
  next item' heq =>
    rw [h2] at heq
    cases heq
  next heq =>
    rw [dif_pos h3]

theorem scaffoldItem_arr_none (xs : List JSValue) : scaffoldItem (.arr xs) = none := by
  have h1 := jsLookup_arr_scaffold_none xs "nestedStats" (by simp [keysToReduce])
  have h2 := jsLookup_arr_scaffold_none xs "value" (by simp [keysToReduce])
  have h3 := jsLookup_arr_scaffold_none xs "description" (by simp [keysToReduce])
  have h4 := jsLookup_arr_scaffold_none xs "color" (by simp [keysToReduce])
  simp [scaffoldItem, keysToReduce, List.findSome?, h1, h2, h3, h4]

theorem scaffoldItem_str_none (s : String) : scaffoldItem (.str s) = none := by
  have h1 := jsLookup_str_scaffold_none s "nestedStats" (by simp [keysToReduce])
  have h2 := jsLookup_str_scaffold_none s "value" (by simp [keysToReduce])
  have h3 := jsLookup_str_scaffold_none s "description" (by simp [keysToReduce])
  have h4 := jsLookup_str_scaffold_none s "color" (by simp [keysToReduce])
  simp [scaffoldItem, keysToReduce, List.findSome?, h1, h2, h3, h4]

theorem scaffoldItem_num_none (n : Int) : scaffoldItem (.num n) = none := by
  simp [scaffoldItem, keysToReduce, List.findSome?, jsLookup]

theorem scaffoldItem_bool_none (b : Bool) : scaffoldItem (.bool b) = none := by
  simp [scaffoldItem, keysToReduce, List.findSome?, jsLookup]

theorem reduceData_arr_nopivot (xs : List JSValue) (options : ReduceOptions)
    (h : catmKey options = none) :
    reduceData (.arr xs) options = (reduceList xs options).map .arr := by
  rw [reduceData.eq_def]
  simp only [show isNull (.arr xs) = false from rfl, Bool.false_eq_true, if_false]
  split
  next item' heq =>
    rw [scaffoldItem_arr_none xs] at heq
    cases heq
  next heq =>
    have hc : (jsTruthyO (jsLookup (.arr xs) "entries") && !isArr (.arr xs)) = false := by
      simp [isArr]
    rw [dif_neg (by simp [hc])]
    rw [h]

theorem reduceData_arr_pivot (xs : List JSValue) (options : ReduceOptions) (kn : String)
    (h : catmKey options = some kn) :
    reduceData (.arr xs) options =
      reduceData (.obj (convertArrayToMap xs kn (catmPfx options))) options := by
  rw [reduceData.eq_def]
  simp only [show isNull (.arr xs) = false from rfl, Bool.false_eq_true, if_false]
  split
  next item' heq =>
    rw [scaffoldItem_arr_none xs] at heq
    cases heq
  next heq =>
    have hc : (jsTruthyO (jsLookup (.arr xs) "entries") && !isArr (.arr xs)) = false := by
      simp [isArr]
    rw [dif_neg (by simp [hc])]
    rw [h]

theorem reduceData_obj_generic (fs : List (String × JSValue)) (options : ReduceOptions)
    (h2 : scaffoldItem (.obj fs) = none)
    (h3 : jsTruthyO (fs.lookup "entries") = false) :
    reduceData (.obj fs) options = (reduceFields fs options).map .obj := by
  rw [reduceData.eq_def]
  simp only [show isNull (.obj fs) = false from rfl, Bool.false_eq_true, if_false]
  split
  next item' heq =>
    rw [h2] at heq
    cases heq
  next heq =>
    have hc : (jsTruthyO (jsLookup (.obj fs) "entries") && !isArr (.obj fs)) = false := by
      rw [show jsLookup (.obj fs) "entries" = fs.lookup "entries" from rfl, h3]
      rfl
    rw [dif_neg (by simp [hc])]

theorem reduceData_num (n : Int) (options : ReduceOptions) :
    reduceData (.num n) options = .ok (.num n) := by
  rw [reduceData.eq_def]
  simp only [show isNull (.num n) = false from rfl, Bool.false_eq_true, if_false]
  split
  next item' heq =>
    rw [scaffoldItem_num_none n] at heq
    cases heq
  next heq =>
    have hc : (jsTruthyO (jsLookup (.num n) "entries") && !isArr (.num n)) = false := by
      simp [jsLookup, jsTruthyO]
    rw [dif_neg (by simp [hc])]
    rfl

theorem reduceData_bool (b : Bool) (options : ReduceOptions) :
    reduceData (.bool b) options = .ok (.bool b) := by
  rw [reduceData.eq_def]
  simp only [show isNull (.bool b) = false from rfl, Bool.false_eq_true, if_false]
  split
  next item' heq =>
    rw [scaffoldItem_bool_none b] at heq
    cases heq
  next heq =>
    have hc : (jsTruthyO (jsLookup (.bool b) "entries") && !isArr (.bool b)) = false := by
      simp [jsLookup, jsTruthyO]
    rw [dif_neg (by simp [hc])]
    rfl

theorem reduceData_str (s : String) (options : ReduceOptions) :
    reduceData (.str s) options = .ok (.str s) := by
  rw [reduceData.eq_def]
  simp only [show isNull (.str s) = false from rfl, Bool.false_eq_true, if_false]
  split
  next item' heq =>
    rw [scaffoldItem_str_none s] at heq
    cases heq
  next heq =>
    have hc : (jsTruthyO (jsLookup (.str s) "entries") && !isArr (.str s)) = false := by
      rw [jsLookup_str_entries_none s]
      rfl
    rw [dif_neg (by simp [hc])]
    rfl

theorem reduceList_nil (options : ReduceOptions) : reduceList [] options = pure [] := by
  rw [reduceList.eq_def]


theorem reduceList_cons (x : JSValue) (rest : List JSValue) (options : ReduceOptions) :
    reduceList (x :: rest) options = (do
      let y ← reduceData x options
      let ys ← reduceList rest options
      pure (y :: ys)) := by
  rw [reduceList.eq_def]

theorem reduceFields_nil (options : ReduceOptions) : reduceFields [] options = pure [] := by
  rw [reduceFields.eq_def]

theorem reduceFields_cons (k : String) (v : JSValue) (rest : List (String × JSValue))
    (options : ReduceOptions) :
    reduceFields ((k, v) :: rest) options = (do
      let w ← reduceData v options
      let ws ← reduceFields rest options
      pure ((k, w) :: ws)) := by
  rw [reduceFields.eq_def]

/- #### Idempotence of reduction

`reduceData` is a closure operator on successful results: reducing an
already-reduced tree is the identity.  The proof is a strong induction on
the termination measure `redM`. -/

theorem except_bind_ok {ε α β : Type} (x : Except ε α) (f : α → Except ε β) (b : β) :
    ((x >>= f) = .ok b) ↔ (∃ a, x = .ok a ∧ f a = .ok b) := by
  cases x with
  | error e => simp [Bind.bind, Except.bind]
  | ok a => simp [Bind.bind, Except.bind]

theorem except_map_ok {ε α β : Type} (g : α → β) (x : Except ε α) (b : β) :
    (x.map g = .ok b) ↔ (∃ a, x = .ok a ∧ g a = b) := by
  cases x with
  | error e => simp [Except.map]
  | ok a => simp [Except.map]

theorem findSome?_none {α β : Type} :
    ∀ (l : List α) (f : α → Option β),
      l.findSome? f = none ↔ ∀ a ∈ l, f a = none := by
  intro l f
  induction l with
  | nil => simp [List.findSome?]
  | cons x rest ih =>
    rw [List.findSome?]
    rcases hx : f x with _ | v
    · simp only [List.mem_cons]
      constructor
      · intro h a ha
        rcases ha with h1 | h2
        · rw [h1]; exact hx
        · exact (ih.1 h) a h2
      · intro h
        exact ih.2 (fun a ha => h a (Or.inr ha))
    · simp only [List.mem_cons]
      constructor
      · intro h; cases h
      · intro h
        have := h x (Or.inl rfl)
        rw [hx] at this
        cases this

theorem muL_mem : ∀ (xs : List JSValue) x, x ∈ xs → jsMu x ≤ muL xs := by
  intro xs x
  induction xs with
  | nil => intro h; simp at h
  | cons z rest ih =>
    intro h
    rcases List.mem_cons.1 h with h1 | h2
    · simp only [muL, h1]; omega
    · simp only [muL]; have := ih h2; omega

theorem redM_elem_lt : ∀ (xs : List JSValue) x, x ∈ xs → redM x < redM (.arr xs) := by
  intro xs x h
  have h1 := muL_mem xs x h
  have h2 := jsPhi_le_two x
  have h3 : jsPhi (.arr xs) = 2 := rfl
  simp only [redM, jsMu]
  omega

theorem redM_field_lt :
    ∀ (fs : List (String × JSValue)) k v, (k, v) ∈ fs → redM v < redM (.obj fs) := by
  intro fs k v h
  have h1 := muF_mem fs k v h
  have h2 := jsPhi_le_two v
  have h3 := jsPhi_obj_le_one fs
  simp only [redM, jsMu]
  omega

theorem reduceFields_keys :
    ∀ (fs : List (String × JSValue)) opts gs,
      reduceFields fs opts = .ok gs → gs.map Prod.fst = fs.map Prod.fst := by
  intro fs
  induction fs with
  | nil =>
    intro opts gs h
    rw [reduceFields_nil] at h
    cases h
    rfl
  | cons f rest ih =>
    intro opts gs h
    rcases f with ⟨k, v⟩
    rw [reduceFields_cons] at h
    rcases (except_bind_ok _ _ _).1 h with ⟨w, hw, h2⟩
    rcases (except_bind_ok _ _ _).1 h2 with ⟨ws, hws, h3⟩
    have : gs = (k, w) :: ws := by
      have := h3
      simp [pure, Except.pure] at this
      exact this.symm
    subst this
    simp only [List.map_cons, List.cons.injEq]
    exact ⟨trivial, ih opts ws hws⟩

theorem reduceFields_lookup :
    ∀ (fs : List (String × JSValue)) opts gs,
      reduceFields fs opts = .ok gs →
      ∀ k v, fs.lookup k = some v →
        ∃ w, gs.lookup k = some w ∧ reduceData v opts = .ok w := by
  intro fs
  induction fs with
  | nil => intro opts gs h k v hv; simp [List.lookup] at hv
  | cons f rest ih =>
    intro opts gs h k v hv
    rcases f with ⟨k', v'⟩
    rw [reduceFields_cons] at h
    rcases (except_bind_ok _ _ _).1 h with ⟨w, hw, h2⟩
    rcases (except_bind_ok _ _ _).1 h2 with ⟨ws, hws, h3⟩
    have hgs : gs = (k', w) :: ws := by
      have := h3
      simp [pure, Except.pure] at this
      exact this.symm
    subst hgs
    rw [List.lookup] at hv ⊢
    rcases hk : (k == k') with _ | _
    · rw [hk] at hv
      exact ih opts ws hws k v hv
    · rw [hk] at hv
      simp at hv
      subst hv
      exact ⟨w, rfl, hw⟩

theorem lookup_isSome_of_keys_eq {β : Type} :
    ∀ (fs gs : List (String × β)) k, fs.map Prod.fst = gs.map Prod.fst →
      (fs.lookup k).isSome = (gs.lookup k).isSome := by
  intro fs
  induction fs with
  | nil =>
    intro gs k h
    cases gs with
    | nil => rfl
    | cons g _ => simp at h
  | cons f rest ih =>
    intro gs k h
    cases gs with
    | nil => simp at h
    | cons g grest =>
      simp only [List.map_cons, List.cons.injEq] at h
      rw [List.lookup, List.lookup, h.1]
      rcases hk : (k == g.1) with _ | _
      · exact ih grest k h.2
      · rfl

/-- A falsy value reduces to itself (a falsy `null` cannot reduce at all). -/
theorem reduceData_falsy :
    ∀ (v : JSValue) opts w, jsTruthy v = false → reduceData v opts = .ok w → w = v := by
  intro v opts w hv h
  cases v with
  | null => rw [reduceData_null] at h; cases h
  | bool b => rw [reduceData_bool] at h; injection h with h'; exact h'.symm
  | num n => rw [reduceData_num] at h; injection h with h'; exact h'.symm
  | str s => rw [reduceData_str] at h; injection h with h'; exact h'.symm
  | arr xs => simp [jsTruthy] at hv
  | obj fs => simp [jsTruthy] at hv

/-- The scaffold check depends only on the key set and its size, which the
generic recursion preserves. -/
theorem scaffoldItem_transfer :
    ∀ (fs gs : List (String × JSValue)), fs.map Prod.fst = gs.map Prod.fst →
      scaffoldItem (.obj fs) = none → scaffoldItem (.obj gs) = none := by
  intro fs gs hkeys h
  rw [scaffoldItem] at h ⊢
  rw [findSome?_none] at h ⊢
  intro k hk
  have hf := h k hk
  have hlen : gs.length = fs.length := by
    have := congrArg List.length hkeys
    simp at this
    exact this.symm
  rcases hgk : gs.lookup k with _ | w
  · rw [show jsLookup (.obj gs) k = gs.lookup k from rfl, hgk]
  · have hsome : (fs.lookup k).isSome = true := by
      rw [lookup_isSome_of_keys_eq fs gs k hkeys, hgk]
      rfl
    rcases hfk : fs.lookup k with _ | v
    · rw [hfk] at hsome; cases hsome
    · rw [show jsLookup (.obj fs) k = fs.lookup k from rfl, hfk] at hf
      have hne : (jsNumKeys (.obj fs) == 1) = false := by
        rcases hq : (jsNumKeys (.obj fs) == 1) with _ | _
        · rfl
        · rw [hq] at hf; simp at hf
      rw [show jsLookup (.obj gs) k = gs.lookup k from rfl, hgk]
      have hne' : (jsNumKeys (.obj gs) == 1) = false := by
        simp only [jsNumKeys] at hne ⊢
        rw [hlen]
        exact hne
      simp [hne']

theorem reduceList_fix :
    ∀ (xs : List JSValue) opts ys,
      (∀ x ∈ xs, ∀ y, reduceData x opts = .ok y → reduceData y opts = .ok y) →
      reduceList xs opts = .ok ys → reduceList ys opts = .ok ys := by
  intro xs
  induction xs with
  | nil =>
    intro opts ys hpt h
    rw [reduceList_nil] at h
    have hys : ys = [] := by
      simp [pure, Except.pure] at h
      exact h
    subst hys
    rw [reduceList_nil]
    rfl
  | cons x rest ih =>
    intro opts ys hpt h
    rw [reduceList_cons] at h
    rcases (except_bind_ok _ _ _).1 h with ⟨y, hy, h2⟩
    rcases (except_bind_ok _ _ _).1 h2 with ⟨ys', hys, h3⟩
    have : ys = y :: ys' := by
      simp [pure, Except.pure] at h3
      exact h3.symm
    subst this
    rw [reduceList_cons]
    rw [hpt x (by simp) y hy]
    rw [ih opts ys' (fun z hz => hpt z (by simp [hz])) hys]
    rfl

theorem reduceFields_fix :
    ∀ (fs : List (String × JSValue)) opts gs,
      (∀ k v, (k, v) ∈ fs → ∀ w, reduceData v opts = .ok w → reduceData w opts = .ok w) →
      reduceFields fs opts = .ok gs → reduceFields gs opts = .ok gs := by
  intro fs
  induction fs with
  | nil =>
    intro opts gs hpt h
    rw [reduceFields_nil] at h
    have hgs : gs = [] := by
      simp [pure, Except.pure] at h
      exact h
    subst hgs
    rw [reduceFields_nil]
    rfl
  | cons f rest ih =>
    intro opts gs hpt h
    rcases f with ⟨k, v⟩
    rw [reduceFields_cons] at h
    rcases (except_bind_ok _ _ _).1 h with ⟨w, hw, h2⟩
    rcases (except_bind_ok _ _ _).1 h2 with ⟨ws, hws, h3⟩
    have : gs = (k, w) :: ws := by
      simp [pure, Except.pure] at h3
      exact h3.symm
    subst this
    rw [reduceFields_cons]
    rw [hpt k v (by simp) w hw]
    rw [ih opts ws (fun k' v' hm w' => hpt k' v' (by simp [hm]) w') hws]
    rfl

theorem reduce_fix_aux :
    ∀ N data opts y, redM data < N → reduceData data opts = .ok y →
      reduceData y opts = .ok y := by
  intro N
  induction N with
  | zero => intro data opts y h; omega
  | succ N IH =>
    intro data opts y hN h
    cases data with
    | null => rw [reduceData_null] at h; cases h
    | num n =>
      rw [reduceData_num] at h
      injection h with h'
      subst h'
      exact reduceData_num n opts
    | bool b =>
      rw [reduceData_bool] at h
      injection h with h'
      subst h'
      exact reduceData_bool b opts
    | str s =>
      rw [reduceData_str] at h
      injection h with h'
      subst h'
      exact reduceData_str s opts
    | arr xs =>
      rcases hck : catmKey opts with _ | kn
      · rw [reduceData_arr_nopivot xs opts hck] at h
        rcases (except_map_ok _ _ _).1 h with ⟨ys, hys, hy⟩
        subst hy
        rw [reduceData_arr_nopivot ys opts hck]
        have hpt : ∀ x ∈ xs, ∀ y', reduceData x opts = .ok y' → reduceData y' opts = .ok y' := by
          intro x hx y' hy'
          exact IH x opts y' (by have := redM_elem_lt xs x hx; omega) hy'
        rw [reduceList_fix xs opts ys hpt hys]
        rfl
      · rw [reduceData_arr_pivot xs opts kn hck] at h
        have hlt := redM_pivot_lt xs kn (catmPfx opts)
        exact IH _ opts y (by omega) h
    | obj fs =>
      rcases hscaf : scaffoldItem (.obj fs) with _ | item
      · rcases htr : jsTruthyO (fs.lookup "entries") with _ | _
        · rw [reduceData_obj_generic fs opts hscaf htr] at h
          rcases (except_map_ok _ _ _).1 h with ⟨gs, hgs, hy⟩
          subst hy
          have hkeys := reduceFields_keys fs opts gs hgs
          have hscaf' : scaffoldItem (.obj gs) = none :=
            scaffoldItem_transfer fs gs hkeys.symm hscaf
          have htr' : jsTruthyO (gs.lookup "entries") = false := by
            rcases hfe : fs.lookup "entries" with _ | v
            · have hs : (gs.lookup "entries").isSome = (fs.lookup "entries").isSome :=
                lookup_isSome_of_keys_eq gs fs _ hkeys
              rw [hfe] at hs
              rcases hge : gs.lookup "entries" with _ | w
              · rfl
              · rw [hge] at hs; simp at hs
            · rcases reduceFields_lookup fs opts gs hgs "entries" v hfe with ⟨w, hgw, hvw⟩
              have hv : jsTruthy v = false := by
                rw [hfe] at htr
                simpa [jsTruthyO] using htr
              have hwv : w = v := reduceData_falsy v opts w hv hvw
              rw [hgw, hwv]
              simpa [jsTruthyO] using hv
          rw [reduceData_obj_generic gs opts hscaf' htr']
          have hpt : ∀ k v, (k, v) ∈ fs → ∀ w, reduceData v opts = .ok w →
              reduceData w opts = .ok w := by
            intro k v hm w hw
            exact IH v opts w (by have := redM_field_lt fs k v hm; omega) hw
          rw [reduceFields_fix fs opts gs hpt hgs]
          rfl
        · have hcond :
              (jsTruthyO (jsLookup (.obj fs) "entries") && !isArr (.obj fs)) = true := by
            rw [show jsLookup (.obj fs) "entries" = fs.lookup "entries" from rfl, htr]
            rfl
          rw [reduceData_entries (.obj fs) opts rfl hscaf hcond] at h
          have hlt := redM_entries_branch_lt (.obj fs)
            (by rw [show jsLookup (.obj fs) "entries" = fs.lookup "entries" from rfl]; exact htr)
            rfl
          exact IH _ opts y (by omega) h
      · rw [reduceData_scaffold (.obj fs) opts item rfl hscaf] at h
        have hlt := redM_scaffold_lt (.obj fs) item hscaf
        exact IH item opts y (by omega) h

/-- Reducing an already-reduced result is the identity. -/
theorem reduce_fix :
    ∀ data opts y, reduceData data opts = .ok y → reduceData y opts = .ok y := by
  intro data opts y h
  exact reduce_fix_aux (redM data + 1) data opts y (by omega) h

/- ### Concrete evaluations used by the claims -/

theorem eval_value5 : reduceData (.obj [("value", .num 5)]) ⟨none⟩ = .ok (.num 5) := by
  have h1 := reduceData_scaffold (.obj [("value", .num 5)]) ⟨none⟩ (.num 5) rfl rfl
  rw [h1, reduceData_num]

theorem eval_entries_foo :
    reduceData (.obj [("entries", .obj [("https://localhost/mgmt/tm/sys/foo",
      .obj [("value", .num 1)])])]) ⟨none⟩ = .ok (.obj [("sys/foo", .num 1)]) := by
  have h1 := reduceData_entries (.obj [("entries", .obj [("https://localhost/mgmt/tm/sys/foo",
    .obj [("value", .num 1)])])]) ⟨none⟩ rfl rfl rfl
  rw [h1]
  show reduceData (.obj [("sys/foo", .obj [("value", .num 1)])]) ⟨none⟩ = _
  have h2 := reduceData_obj_generic [("sys/foo", .obj [("value", .num 1)])] ⟨none⟩ rfl rfl
  rw [h2, reduceFields_cons]
  have h3 := reduceData_scaffold (.obj [("value", .num 1)]) ⟨none⟩ (.num 1) rfl rfl
  rw [h3, reduceData_num, reduceFields_nil]
  rfl

theorem eval_e2e :
    reduceData (.obj [("entries",
      .obj [("https://localhost/mgmt/tm/sys/tmm-info/0.0/stats",
        .obj [("nestedStats",
          .obj [("entries",
            .obj [("oneMinAverageSystem", .obj [("value", .num 5)])])])])])]) ⟨none⟩ =
    .ok (.obj [("sys/tmm-info/0.0/stats",
      .obj [("oneMinAverageSystem", .num 5)])]) := by
  rw [reduceData_entries (.obj [("entries",
      .obj [("https://localhost/mgmt/tm/sys/tmm-info/0.0/stats",
        .obj [("nestedStats",
          .obj [("entries",
            .obj [("oneMinAverageSystem", .obj [("value", .num 5)])])])])])]) ⟨none⟩
    rfl rfl rfl]
  show reduceData (.obj [("sys/tmm-info/0.0/stats",
    .obj [("nestedStats",
      .obj [("entries",
        .obj [("oneMinAverageSystem", .obj [("value", .num 5)])])])])]) ⟨none⟩ = _
  rw [reduceData_obj_generic [("sys/tmm-info/0.0/stats",
    .obj [("nestedStats",
      .obj [("entries",
        .obj [("oneMinAverageSystem", .obj [("value", .num 5)])])])])] ⟨none⟩ rfl rfl]
  rw [reduceFields_cons]
  rw [reduceData_scaffold (.obj [("nestedStats",
      .obj [("entries",
        .obj [("oneMinAverageSystem", .obj [("value", .num 5)])])])]) ⟨none⟩
    (.obj [("entries", .obj [("oneMinAverageSystem", .obj [("value", .num 5)])])]) rfl rfl]
  rw [reduceData_entries (.obj [("entries",
      .obj [("oneMinAverageSystem", .obj [("value", .num 5)])])]) ⟨none⟩ rfl rfl rfl]
  show (do
      let w ← reduceData (.obj [("oneMinAverageSystem", .obj [("value", .num 5)])]) ⟨none⟩
      let ws ← reduceFields [] ⟨none⟩
      pure ((("sys/tmm-info/0.0/stats" : String), w) :: ws)).map JSValue.obj = _
  rw [reduceData_obj_generic [("oneMinAverageSystem", .obj [("value", .num 5)])] ⟨none⟩ rfl rfl]
  rw [reduceFields_cons]
  rw [reduceData_scaffold (.obj [("value", .num 5)]) ⟨none⟩ (.num 5) rfl rfl, reduceData_num]
  rw [reduceFields_nil]
  rfl

/- ### Claims -/

/-- C1 (counterexample): the spec's examples are wrong about the
simplified entries keys: `reduce({"entries": {"https://localhost/mgmt/tm/sys/foo":
{"value": 1}}})` is not `{"foo": 1}` — line 172 strips only the
`https://localhost/` and `mgmt/tm/` heads, so the `sys/` segment
remains. -/
theorem C1_counterexample :
    reduceData (.obj [("entries", .obj [("https://localhost/mgmt/tm/sys/foo",
      .obj [("value", .num 1)])])]) ⟨none⟩ ≠ .ok (.obj [("foo", .num 1)]) := by
  rw [eval_entries_foo]
  simp

/-- C1 (amended): reducing an entries container replaces each entries key
by the simplified key with the host-URL head `https://localhost/` and the
path head `mgmt/tm/` stripped (the `sys/` segment remains), so the
one-entry reduce gives `{"sys/foo": 1}` and the end-to-end normalize
gives `{"sys/tmm-info/0.0/stats": {"oneMinAverageSystem": 5}}`. -/
theorem C1_amended_entries_reduction :
    reduceData (.obj [("entries", .obj [("https://localhost/mgmt/tm/sys/foo",
      .obj [("value", .num 1)])])]) ⟨none⟩ = .ok (.obj [("sys/foo", .num 1)]) ∧
    ∀ registry : Registry,
      normalizeData registry (.obj [("entries",
        .obj [("https://localhost/mgmt/tm/sys/tmm-info/0.0/stats",
          .obj [("nestedStats",
            .obj [("entries",
              .obj [("oneMinAverageSystem", .obj [("value", .num 5)])])])])])])
        emptyOptions =
      .ok (.obj [("sys/tmm-info/0.0/stats",
        .obj [("oneMinAverageSystem", .num 5)])]) := by
  constructor
  · exact eval_entries_foo
  · intro registry
    rw [normalizeData]
    simp only [emptyOptions]
    rw [eval_e2e]
    rfl

/-- C2: reduction is idempotent: for every value and fixed reduce options,
re-reducing the result of a successful reduction returns it unchanged (and
a failed reduction composes to the same failure), i.e.
`reduce (reduce x) = reduce x` as `Except` computations. -/
theorem C2_reduce_idempotent :
    ∀ (x : JSValue) (opts : ReduceOptions),
      ((reduceData x opts) >>= (fun y => reduceData y opts)) = reduceData x opts := by
  intro x opts
  rcases h : reduceData x opts with e | y
  · rfl
  · have := reduce_fix x opts y h
    simp [Bind.bind, Except.bind, this]

/-- C6 (counterexample): the scalar base case is not total: reducing JS
`null` throws a TypeError (normalize.js line 159 reads a property of
`data` before any type test), rather than returning `null` unchanged. -/
theorem C6_counterexample :
    reduceData .null ⟨none⟩ = .error "TypeError: Cannot read properties of null" :=
  reduceData_null ⟨none⟩

/-- A non-container JS value (the spec data model's Scalar). -/
def isScalar : JSValue → Bool
  | .null => true
  | .bool _ => true
  | .num _ => true
  | .str _ => true
  | .arr _ => false
  | .obj _ => false

/-- C6 (amended): every scalar other than `null` (booleans, numbers,
strings) reduces to itself without raising; `null` raises a TypeError. -/
theorem C6_amended_scalar_total :
    ∀ (v : JSValue) (opts : ReduceOptions), isScalar v = true → v ≠ .null →
      reduceData v opts = .ok v := by
  intro v opts hs hn
  cases v with
  | null => exact absurd rfl hn
  | bool b => exact reduceData_bool b opts
  | num n => exact reduceData_num n opts
  | str s => exact reduceData_str s opts
  | arr xs => simp [isScalar] at hs
  | obj fs => simp [isScalar] at hs

/-- C6 witness: the amended theorem applied at the scalar `7`. -/
theorem C6_witness :
    isScalar (.num 7) = true ∧ (JSValue.num 7) ≠ .null ∧
      reduceData (.num 7) ⟨none⟩ = .ok (.num 7) :=
  ⟨rfl, by simp, C6_amended_scalar_total (.num 7) ⟨none⟩ rfl (by simp)⟩

theorem eval_entries_obj_a :
    reduceData (.obj [("entries", .obj [("a", .num 1)])]) ⟨none⟩ =
      .ok (.obj [("a", .num 1)]) := by
  rw [reduceData_entries (.obj [("entries", .obj [("a", .num 1)])]) ⟨none⟩ rfl rfl rfl]
  show reduceData (.obj [("a", .num 1)]) ⟨none⟩ = _
  rw [reduceData_obj_generic [("a", .num 1)] ⟨none⟩ rfl rfl]
  rw [reduceFields_cons, reduceData_num, reduceFields_nil]
  rfl

/-- C3 (counterexample): a one-key mapping whose key is not a scaffold
name does NOT always fall through to generic mapping handling unchanged
in shape: the sole key `entries` (with a truthy value) takes the entries
branch, which collapses the wrapper. -/
theorem C3_counterexample :
    reduceData (.obj [("entries", .obj [("a", .num 1)])]) ⟨none⟩ ≠
      .ok (.obj [("entries", .obj [("a", .num 1)])]) := by
  rw [eval_entries_obj_a]
  simp

/-- C3 (amended): a one-key mapping unwraps exactly when its key is one of
`nestedStats`, `value`, `description`, `color`, returning the recursive
reduction of that key's value (so `reduce({"value": 5}) = 5`); a one-key
mapping with a non-scaffold key falls through to generic handling
unchanged in shape, unless the key is `entries` with a truthy value, in
which case the entries branch fires instead. -/
theorem C3_amended_scaffold_unwrap :
    (∀ (k : String) (v : JSValue) (opts : ReduceOptions), k ∈ keysToReduce →
      reduceData (.obj [(k, v)]) opts = reduceData v opts) ∧
    (∀ (k : String) (v : JSValue) (opts : ReduceOptions), k ∉ keysToReduce →
      ¬(k = "entries" ∧ jsTruthy v = true) →
      reduceData (.obj [(k, v)]) opts = (reduceData v opts).map (fun w => .obj [(k, w)])) ∧
    reduceData (.obj [("value", .num 5)]) ⟨none⟩ = .ok (.num 5) := by
  refine ⟨?_, ?_, eval_value5⟩
  · intro k v opts hk
    have hs : scaffoldItem (.obj [(k, v)]) = some v := by
      rcases mem_keysToReduce_cases k hk with h | h | h | h <;> (subst h; rfl)
    exact reduceData_scaffold (.obj [(k, v)]) opts v rfl hs
  · intro k v opts hk hne
    have hs : scaffoldItem (.obj [(k, v)]) = none := by
      rw [scaffoldItem, findSome?_none]
      intro k' hk'
      have hkk : (k' == k) = false := by
        simp only [beq_eq_false_iff_ne]
        intro he
        exact hk (he ▸ hk')
      show (match jsLookup (.obj [(k, v)]) k' with
            | some item => if (jsNumKeys (.obj [(k, v)]) == 1) = true then some item else none
            | none => none) = none
      rw [show jsLookup (.obj [(k, v)]) k' = List.lookup k' [(k, v)] from rfl]
      rw [List.lookup, hkk]
      rfl
    have hent : jsTruthyO (List.lookup "entries" [(k, v)]) = false := by
      rw [List.lookup]
      rcases hke : (("entries" : String) == k) with _ | _
      · rfl
      · have : k = "entries" := by
          have h9 : ("entries" : String) = k := beq_iff_eq.1 hke
          exact h9.symm
        have hv : jsTruthy v = false := by
          rcases hvb : jsTruthy v with _ | _
          · rfl
          · exact absurd ⟨this, hvb⟩ hne
        simpa [jsTruthyO] using hv
    rw [reduceData_obj_generic [(k, v)] opts hs hent]
    rw [reduceFields_cons, reduceFields_nil]
    rcases hred : reduceData v opts with e | w
    · rfl
    · rfl

/-- C3 witness: the amended theorem applied at the scaffold wrapper
`{"color": 3}` (which unwraps) and at `{"foo": 1}` (which is handled
generically, unchanged in shape). -/
theorem C3_witness :
    reduceData (.obj [("color", .num 3)]) ⟨none⟩ = reduceData (.num 3) ⟨none⟩ ∧
    reduceData (.obj [("foo", .num 1)]) ⟨none⟩ =
      (reduceData (.num 1) ⟨none⟩).map (fun w => .obj [("foo", w)]) :=
  ⟨C3_amended_scaffold_unwrap.1 "color" (.num 3) ⟨none⟩ (by decide),
   C3_amended_scaffold_unwrap.2.1 "foo" (.num 1) ⟨none⟩ (by decide) (by decide)⟩

theorem eval_entries_num5 :
    reduceData (.obj [("entries", .num 5)]) ⟨none⟩ = .ok (.obj []) := by
  rw [reduceData_entries (.obj [("entries", .num 5)]) ⟨none⟩ rfl rfl rfl]
  show reduceData (.obj []) ⟨none⟩ = _
  rw [reduceData_obj_generic [] ⟨none⟩ rfl rfl]
  rw [reduceFields_nil]
  rfl

/-- C9 (counterexample): an `entries` field whose value is present but is
not a mapping does NOT always fall through to generic mapping handling:
the truthy number `5` passes line 166's truthiness test, so the entries
branch fires, enumerates the number's (empty) own keys, and the key set
is not preserved — `reduce({"entries": 5})` is `{}`, not
`{"entries": 5}`. -/
theorem C9_counterexample :
    reduceData (.obj [("entries", .num 5)]) ⟨none⟩ ≠
      .ok (.obj [("entries", .num 5)]) := by
  rw [eval_entries_num5]
  simp

/-- C9 (amended): a mapping whose `entries` property is absent or falsy
(and that is not a sole scaffold wrapper) falls through to generic
mapping handling — reducing each value while preserving the key set, and
raising only where reducing a value raises; a scaffold-named key
accompanied by at least one other key never triggers the scaffold unwrap;
but a mapping whose `entries` property is truthy — even a non-mapping
such as a number — instead takes the entries branch, rebuilding from that
value's own keys and dropping sibling keys. -/
theorem C9_amended_malformed_entries :
    (∀ (fs : List (String × JSValue)) (opts : ReduceOptions),
      scaffoldItem (.obj fs) = none → jsTruthyO (fs.lookup "entries") = false →
      reduceData (.obj fs) opts = (reduceFields fs opts).map .obj) ∧
    (∀ fs : List (String × JSValue), 2 ≤ fs.length → scaffoldItem (.obj fs) = none) ∧
    (∀ (fs : List (String × JSValue)) (opts : ReduceOptions) (E : JSValue),
      scaffoldItem (.obj fs) = none → fs.lookup "entries" = some E → jsTruthy E = true →
      reduceData (.obj fs) opts = reduceData (.obj (entriesRet E)) opts) := by
  refine ⟨reduceData_obj_generic, ?_, ?_⟩
  · intro fs hlen
    rw [scaffoldItem, findSome?_none]
    intro k hk
    show (match jsLookup (.obj fs) k with
          | some item => if (jsNumKeys (.obj fs) == 1) = true then some item else none
          | none => none) = none
    rcases hlk : jsLookup (.obj fs) k with _ | v
    · rfl
    · have hne : (jsNumKeys (.obj fs) == 1) = false := by
        simp only [jsNumKeys, beq_eq_false_iff_ne]
        omega
      rw [hne]
      rfl
  · intro fs opts E hscaf hlk htr
    have hcond : (jsTruthyO (jsLookup (.obj fs) "entries") && !isArr (.obj fs)) = true := by
      rw [show jsLookup (.obj fs) "entries" = fs.lookup "entries" from rfl, hlk]
      simpa [jsTruthyO, isArr] using htr
    have h := reduceData_entries (.obj fs) opts rfl hscaf hcond
    rw [show jsLookup (.obj fs) "entries" = fs.lookup "entries" from rfl, hlk] at h
    simpa using h

/-- C9 witness: the amended theorem applied at `{"x": 1, "entries": 0}`
(falsy entries: generic handling), at the two-key scaffold-named mapping
`{"value": 1, "y": 2}` (no unwrap), and at `{"entries": 5}` (truthy
non-mapping entries: the entries branch). -/
theorem C9_witness :
    reduceData (.obj [("x", .num 1), ("entries", .num 0)]) ⟨none⟩ =
      (reduceFields [("x", .num 1), ("entries", .num 0)] ⟨none⟩).map .obj ∧
    scaffoldItem (.obj [("value", .num 1), ("y", .num 2)]) = none ∧
    reduceData (.obj [("entries", .num 5)]) ⟨none⟩ =
      reduceData (.obj (entriesRet (.num 5))) ⟨none⟩ :=
  ⟨C9_amended_malformed_entries.1 [("x", .num 1), ("entries", .num 0)] ⟨none⟩ rfl rfl,
   C9_amended_malformed_entries.2.1 [("value", .num 1), ("y", .num 2)] (by decide),
   C9_amended_malformed_entries.2.2 [("entries", .num 5)] ⟨none⟩ (.num 5) rfl rfl rfl⟩

/-- The rename patterns of the spec's own example: trigger substring
`tmm`, regex `tmm_(\d+)` with capture group 1.  The match function embeds
that regex's behaviour at the keys exercised here (`tmm_0` matches with
group 1 = `0`; the renamed key `0` and plain values match nothing). -/
def tmmPatterns : List (String × RenamePattern) :=
  [("tmm", ⟨fun s => if s == "tmm_0" then some ["tmm_0", "0"] else none, 1⟩)]

/-- C4 (counterexample): `rename` does NOT recurse into sequence
elements: a sequence is returned unchanged (normalize.js line 140), so a
mapping nested inside it keeps its original key even though the same
mapping renamed standalone changes. -/
theorem C4_counterexample :
    renameKeysInData (.arr [.obj [("tmm_0", .num 5)]]) tmmPatterns ≠
      .ok (.arr [.obj [("0", .num 5)]]) ∧
    renameKeysInData (.obj [("tmm_0", .num 5)]) tmmPatterns =
      .ok (.obj [("0", .num 5)]) := by
  constructor
  · show Except.ok (JSValue.arr [.obj [("tmm_0", .num 5)]]) ≠ _
    simp
  · rfl

/-- C4 (amended): for every sequence node, `rename` passes the sequence
through entirely unchanged — its structure, order and elements (including
mappings nested inside) are untouched; only non-array objects have their
keys rewritten. -/
theorem C4_amended_rename_arrays_unchanged :
    ∀ (xs : List JSValue) (patterns : List (String × RenamePattern)),
      renameKeysInData (.arr xs) patterns = .ok (.arr xs) := by
  intro xs patterns
  rfl

/-- C10: when two distinct keys of a mapping are renamed to the same new
key, the result holds exactly one entry under that key: the renamed
subtree of the key enumerated last overwrites the earlier one, whose
subtree is dropped. -/
theorem C10_rename_collision_last_wins :
    ∀ (patterns : List (String × RenamePattern)) (k1 k2 : String) (v1 v2 : JSValue)
      (r : String), k1 ≠ k2 →
      jsRenameKey patterns k1 = some r → jsRenameKey patterns k2 = some r →
      renameKeysInData (.obj [(k1, v1), (k2, v2)]) patterns = (do
        let w1 ← renameKeysInData v1 patterns
        let w2 ← renameKeysInData v2 patterns
        pure (.obj [(r, w2)])) := by
  intro patterns k1 k2 v1 v2 r hne h1 h2
  show Except.map JSValue.obj (renameFields [(k1, v1), (k2, v2)] patterns []) = _
  simp only [renameFields]
  rw [h1, h2]
  rcases hv1 : renameKeysInData v1 patterns with e1 | w1
  · simp [Bind.bind, Except.bind, Except.map]
  · rcases hv2 : renameKeysInData v2 patterns with e2 | w2
    · simp [Bind.bind, Except.bind, Except.map]
    · simp [Bind.bind, Except.bind, Except.map, pure, Except.pure, objInsert]

/-- C10 witness: two keys that the pattern `(tmm_\d+)`-like matcher sends
to the same renamed key `0`; the later key's subtree (value 2) survives. -/
def tmmCollidePatterns : List (String × RenamePattern) :=
  [("tmm", ⟨fun s =>
    if s == "tmm_0/a" then some ["tmm_0", "0"]
    else if s == "tmm_0/b" then some ["tmm_0", "0"]
    else none, 1⟩)]

theorem C10_witness :
    renameKeysInData (.obj [("tmm_0/a", .num 1), ("tmm_0/b", .num 2)])
      tmmCollidePatterns = (do
        let w1 ← renameKeysInData (.num 1) tmmCollidePatterns
        let w2 ← renameKeysInData (.num 2) tmmCollidePatterns
        pure (.obj [("0", w2)])) :=
  C10_rename_collision_last_wins tmmCollidePatterns "tmm_0/a" "tmm_0/b"
    (.num 1) (.num 2) "0" (by decide) rfl rfl

/-- C7 (counterexample): scalars do NOT always pass through `filter`
unchanged: `null` has `typeof === 'object'` and is not an array, so
`Object.keys(null)` throws a TypeError. -/
theorem C7_counterexample :
    filterDataByKeys .null ["Util"] =
      .error "TypeError: Cannot convert undefined or null to object" := rfl

/-- C7 (amended): for every mapping, `filter` keeps a key if and only if
some entry of `keys` is a case-sensitive unanchored substring of it and
recurses into the kept subtrees (the kept keys are exactly the
`List.filter` of the original ones); sequences pass through unfiltered;
non-null scalars pass through unchanged (`null` raises); and
`filter({"cpuUtil":1,"memUtil":2,"other":3}, ["Util"])` is
`{"cpuUtil":1,"memUtil":2}`. -/
theorem C7_amended_filter_substring :
    (∀ (fs : List (String × JSValue)) (keys : List String),
      filterDataByKeys (.obj fs) keys =
        ((fs.filter (fun f => keys.any (fun i => jsIncludes (Prod.fst f) i))).mapM
          (fun f => do
            let v' ← filterDataByKeys (Prod.snd f) keys
            pure (Prod.fst f, v'))).map .obj) ∧
    (∀ (xs : List JSValue) (keys : List String),
      filterDataByKeys (.arr xs) keys = .ok (.arr xs)) ∧
    (∀ (v : JSValue) (keys : List String), isScalar v = true → v ≠ .null →
      filterDataByKeys v keys = .ok v) ∧
    filterDataByKeys (.obj [("cpuUtil", .num 1), ("memUtil", .num 2), ("other", .num 3)])
      ["Util"] = .ok (.obj [("cpuUtil", .num 1), ("memUtil", .num 2)]) := by
  refine ⟨?_, ?_, ?_, rfl⟩
  · intro fs keys
    show Except.map JSValue.obj (filterFields fs keys) = _
    congr 1
    induction fs with
    | nil => rfl
    | cons f rest ih =>
      rcases f with ⟨k, v⟩
      rw [filterFields, List.filter_cons]
      rcases hkeep : keys.any (fun i => jsIncludes k i) with _ | _
      · rw [if_neg (by simp [hkeep])]
        rw [if_neg (by simp [hkeep])]
        exact ih
      · rw [if_pos (by simp [hkeep])]
        rw [if_pos (by simp [hkeep])]
        rw [List.mapM_cons, ih]
        rcases hA : filterDataByKeys v keys with e | w <;>
          simp [Bind.bind, Except.bind, pure, Except.pure]
  · intro xs keys
    rfl
  · intro v keys hs hn
    cases v with
    | null => exact absurd rfl hn
    | bool b => rfl
    | num n => rfl
    | str s => rfl
    | arr xs => simp [isScalar] at hs
    | obj fs => simp [isScalar] at hs

/-- C7 witness: the non-null-scalar clause of the amended theorem applied
at the number `7`. -/
theorem C7_witness :
    isScalar (.num 7) = true ∧ filterDataByKeys (.num 7) ["Util"] = .ok (.num 7) :=
  ⟨rfl, C7_amended_filter_substring.2.2.1 (.num 7) ["Util"] rfl (by simp)⟩

/- ### C5: key-path resolution -/

mutual

/-- No `null` occurs anywhere in the tree. -/
def nullFree : JSValue → Bool
  | .null => false
  | .bool _ => true
  | .num _ => true
  | .str _ => true
  | .arr xs => nullFreeL xs
  | .obj fs => nullFreeF fs

def nullFreeL : List JSValue → Bool
  | [] => true
  | x :: xs => nullFree x && nullFreeL xs

def nullFreeF : List (String × JSValue) → Bool
  | [] => true
  | f :: fs => nullFree f.2 && nullFreeF fs

end

theorem nullFreeL_mem :
    ∀ (xs : List JSValue) x, nullFreeL xs = true → x ∈ xs → nullFree x = true := by
  intro xs x
  induction xs with
  | nil => intro _ h; simp at h
  | cons z rest ih =>
    intro hn h
    rw [nullFreeL, Bool.and_eq_true] at hn
    rcases List.mem_cons.1 h with h1 | h2
    · rw [h1]; exact hn.1
    · exact ih hn.2 h2

theorem nullFreeF_mem :
    ∀ (fs : List (String × JSValue)) k v, nullFreeF fs = true → (k, v) ∈ fs →
      nullFree v = true := by
  intro fs k v
  induction fs with
  | nil => intro _ h; simp at h
  | cons f rest ih =>
    intro hn h
    rw [nullFreeF, Bool.and_eq_true] at hn
    rcases List.mem_cons.1 h with h1 | h2
    · rw [← h1] at hn; exact hn.1
    · exact ih hn.2 h2

theorem nullFree_lookup :
    ∀ (v : JSValue) k w, nullFree v = true → jsLookup v k = some w → nullFree w = true := by
  intro v k w hn h
  cases v with
  | null => cases h
  | bool b => cases h
  | num n => cases h
  | arr xs =>
    rw [jsLookup] at h
    rcases hl : (k == "length") with _ | _
    · rw [hl] at h
      simp only [Bool.false_eq_true, if_false] at h
      rcases hi : toCanonicalIndex k with _ | i
      · rw [hi] at h; cases h
      · rw [hi] at h
        exact nullFreeL_mem xs w (by rw [nullFree] at hn; exact hn) (List.get?_mem h)
    · rw [hl] at h
      simp only [if_true] at h
      injection h with h'
      rw [← h']
      rfl
  | str s =>
    rw [jsLookup] at h
    rcases hl : (k == "length") with _ | _
    · rw [hl] at h
      simp only [Bool.false_eq_true, if_false] at h
      rcases hi : toCanonicalIndex k with _ | i
      · rw [hi] at h; cases h
      · rw [hi] at h
        have h2 : (s.data.get? i).map (fun c => JSValue.str (String.mk [c])) = some w := h
        rcases hc : s.data.get? i with _ | c
        · rw [hc] at h2; cases h2
        · rw [hc] at h2
          injection h2 with h'
          rw [← h']
          rfl
    · rw [hl] at h
      simp only [if_true] at h
      injection h with h'
      rw [← h']
      rfl
  | obj fs =>
    have hmem := lookup_mem fs k w h
    exact nullFreeF_mem fs k w (by rw [nullFree] at hn; exact hn) hmem

theorem getDataByKey_total_aux :
    ∀ (segs : List String) (ret : JSValue), nullFree ret = true →
      ∃ v, (segs.foldlM
        (fun ret i =>
          if jsTypeofObj ret then
            match ret with
            | .null => Except.error
                "TypeError: Cannot use 'in' operator to search for key in null"
            | _ =>
              if jsHasOwn ret i then pure ((jsLookup ret i).getD .null)
              else pure (.str "missing key")
          else pure (.str "missing key"))
        ret : Except String JSValue) = .ok v ∧ nullFree v = true := by
  intro segs
  induction segs with
  | nil => intro ret h; exact ⟨ret, rfl, h⟩
  | cons i rest ih =>
    intro ret h
    rw [List.foldlM_cons]
    rcases hty : jsTypeofObj ret with _ | _
    · simp only [hty, Bool.false_eq_true, if_false]
      exact ih (.str "missing key") rfl
    · simp only [hty, if_true]
      cases ret with
      | null => rw [nullFree] at h; cases h
      | bool b =>
        rcases hown : jsHasOwn (.bool b) i with _ | _
        · simp only [hown, Bool.false_eq_true, if_false]
          exact ih (.str "missing key") rfl
        · rw [jsHasOwn] at hown
          rw [show jsLookup (.bool b) i = none from rfl] at hown
          cases hown
      | num n =>
        rcases hown : jsHasOwn (.num n) i with _ | _
        · simp only [hown, Bool.false_eq_true, if_false]
          exact ih (.str "missing key") rfl
        · rw [jsHasOwn] at hown
          rw [show jsLookup (.num n) i = none from rfl] at hown
          cases hown
      | str s =>
        rcases hown : jsHasOwn (.str s) i with _ | _
        · simp only [hown, Bool.false_eq_true, if_false]
          exact ih (.str "missing key") rfl
        · simp only [hown, if_true]
          rcases hlk : jsLookup (.str s) i with _ | w
          · rw [jsHasOwn, hlk] at hown; cases hown
          · exact ih w (nullFree_lookup (.str s) i w h hlk)
      | arr xs =>
        rcases hown : jsHasOwn (.arr xs) i with _ | _
        · simp only [hown, Bool.false_eq_true, if_false]
          exact ih (.str "missing key") rfl
        · simp only [hown, if_true]
          rcases hlk : jsLookup (.arr xs) i with _ | w
          · rw [jsHasOwn, hlk] at hown; cases hown
          · exact ih w (nullFree_lookup (.arr xs) i w h hlk)
      | obj fs =>
        rcases hown : jsHasOwn (.obj fs) i with _ | _
        · simp only [hown, Bool.false_eq_true, if_false]
          exact ih (.str "missing key") rfl
        · simp only [hown, if_true]
          rcases hlk : jsLookup (.obj fs) i with _ | w
          · rw [jsHasOwn, hlk] at hown; cases hown
          · exact ih w (nullFree_lookup (.obj fs) i w h hlk)

/-- C5 (counterexample): resolution is not exception-free on trees
containing `null`: resolving a second segment under a `null` value runs
`'b' in null`, which throws a TypeError (`typeof null === 'object'`
passes the guard). -/
theorem C5_counterexample :
    getDataByKey (.obj [("a", .null)]) "a::b" =
      .error "TypeError: Cannot use 'in' operator to search for key in null" := rfl

/-- C5 (amended): key-path resolution walks the separator-split segments
one at a time, descending when the current node is an object with the
segment as an own property and otherwise switching to the `"missing key"`
sentinel, which then persists; on every null-free input tree it returns a
value (the resolved node or the sentinel) and never raises — the
embedding is a pure function of the tree, which it does not mutate.  When
the walk meets a `null` node with a segment left, the `in` test raises. -/
theorem C5_amended_resolution_total :
    ∀ (data : JSValue) (key : String), nullFree data = true →
      ∃ v, getDataByKey data key = .ok v := by
  intro data key h
  rcases getDataByKey_total_aux (jsSplit key STATS_KEY_SEP) data h with ⟨v, hv, _⟩
  exact ⟨v, hv⟩

/-- C5 witness: the amended theorem applied to a null-free tree and a
two-segment path whose first segment resolves and second does not. -/
theorem C5_witness :
    nullFree (.obj [("a", .obj [("b", .num 3)])]) = true ∧
      ∃ v, getDataByKey (.obj [("a", .obj [("b", .num 3)])]) "a::c" = .ok v :=
  ⟨rfl, C5_amended_resolution_total (.obj [("a", .obj [("b", .num 3)])]) "a::c" rfl⟩

/- ### C8: the reserved `data` argument -/

theorem mergeArgs_data :
    ∀ (argfs acc : List (String × JSValue)), "data" ∈ argfs.map Prod.fst →
      mergeArgs acc argfs = .error "Named argument (data) is not allowed" := by
  intro argfs
  induction argfs with
  | nil => intro acc h; simp at h
  | cons f rest ih =>
    intro acc h
    rcases f with ⟨k, v⟩
    rw [mergeArgs]
    rcases hk : (k == "data") with _ | _
    · simp only [hk, Bool.false_eq_true, if_false]
      apply ih
      simp only [List.map_cons, List.mem_cons] at h
      rcases h with h1 | h2
      · rw [beq_eq_false_iff_ne] at hk
        exact absurd h1.symm hk
      · exact h2
    · simp only [hk, if_true]

theorem runCustomFunction_data_err :
    ∀ (registry : Registry) (data : JSValue) (func : String)
      (argfs : List (String × JSValue)), "data" ∈ argfs.map Prod.fst →
      runCustomFunction registry data func (some (.obj argfs)) =
        .error "Named argument (data) is not allowed" := by
  intro registry data func argfs h
  rw [runCustomFunction]
  have hm := mergeArgs_data argfs [("data", data)] h
  simp only [jsTruthy, jsTypeofObj, Bool.and_self, if_true, jsOwnEntries, hm]
  rfl

theorem bind_err {α β : Type} :
    ∀ (x : Except String α) (f : α → Except String β),
      (∀ a, ∃ m, f a = .error m) → ∃ m, (x >>= f) = .error m := by
  intro x f hf
  cases x with
  | error e => exact ⟨e, rfl⟩
  | ok a =>
    rcases hf a with ⟨m, hm⟩
    exact ⟨m, by simpa [Bind.bind, Except.bind] using hm⟩

/-- C8: whenever `runCustomFunction.args` is a mapping containing the key
`data`, the whole `normalize` call fails — and produces the very same
outcome for every registry, so the registered function is never
consulted, let alone invoked; no result is produced. -/
theorem C8_reserved_data_rejected :
    ∀ (registry : Registry) (data : JSValue) (options : NormalizeOptions)
      (rcf : RunCfOptions) (argfs : List (String × JSValue)),
      options.runCustomFunction = some rcf → rcf.args = some (.obj argfs) →
      "data" ∈ argfs.map Prod.fst →
      (∃ msg, normalizeData registry data options = .error msg) ∧
      (∀ registry' : Registry,
        normalizeData registry' data options = normalizeData registry data options) := by
  intro registry data options rcf argfs hrc hargs hdata
  have hrun : ∀ (reg : Registry) (ret : JSValue),
      runCustomFunction reg ret rcf.name rcf.args =
        .error "Named argument (data) is not allowed" := by
    intro reg ret
    rw [hargs]
    exact runCustomFunction_data_err reg ret rcf.name argfs hdata
  have key : ∀ reg : Registry, normalizeData reg data options = (do
      let ret ← reduceData data ⟨options.convertArrayToMap⟩
      let ret ←
        match options.key with
        | some k => if k == "" then pure ret else getDataByKey ret k
        | none => pure ret
      let ret ←
        match options.filterByKeys with
        | some ks => filterDataByKeys ret ks
        | none => pure ret
      let _ ←
        match options.renameKeysByPattern with
        | some ps => renameKeysInData ret ps
        | none => pure ret
      (.error "Named argument (data) is not allowed" : Except String JSValue)) := by
    intro reg
    rw [normalizeData, hrc]
    simp only [hrun reg]
  constructor
  · rw [key registry]
    apply bind_err
    intro r1
    have tail34 : ∀ r2 : JSValue, ∃ m,
        ((do
          let ret ←
            match options.filterByKeys with
            | some ks => filterDataByKeys r2 ks
            | none => pure r2
          let _ ←
            match options.renameKeysByPattern with
            | some ps => renameKeysInData ret ps
            | none => pure ret
          (.error "Named argument (data) is not allowed" : Except String JSValue)) :
          Except String JSValue) = .error m := by
      intro r2
      rcases hf : options.filterByKeys with _ | ks <;>
        rcases hr : options.renameKeysByPattern with _ | ps <;>
        · apply bind_err
          intro r3
          apply bind_err
          intro r4
          exact ⟨_, rfl⟩
    rcases hk : options.key with _ | k
    · exact tail34 r1
    · rcases hke : (k == "") with _ | _
      · simp only [hke, Bool.false_eq_true, if_false]
        apply bind_err
        intro r2
        exact tail34 r2
      · simp only [hke, if_true]
        apply bind_err
        intro r2
        exact tail34 r2
  · intro registry'
    rw [key registry', key registry]

/-- C8 witness: the rejection theorem applied to a concrete call whose
custom-function args are `{"data": 1}`, under the empty registry. -/
theorem C8_witness :
    "data" ∈ ([(("data" : String), JSValue.num 1)].map Prod.fst) ∧
    (∃ msg, normalizeData (fun _ => none) (.num 2)
      ⟨none, none, none, none, some ⟨"fn", some (.obj [("data", .num 1)])⟩⟩ =
        .error msg) :=
  ⟨by simp,
   (C8_reserved_data_rejected (fun _ => none) (.num 2)
     ⟨none, none, none, none, some ⟨"fn", some (.obj [("data", .num 1)])⟩⟩
     ⟨"fn", some (.obj [("data", .num 1)])⟩ [("data", .num 1)]
     rfl rfl (by simp)).1⟩
